import Mathlib

/-!
Verification of the oapi-invoker-mcp core against its specification.

The definitions below are a shallow embedding of the TypeScript sources:
  - src/tool/script-executor.ts  (template substitution, script dispatch)
  - src/tool/value-processor.ts  (recursive value resolution, header env folding)
  - src/tool/translator.ts       (input schema construction, tool name uniqueness)
  - src/tool/parser.ts           (spec filtering)
  - src/tool/invoker.ts          (request construction, retry loop, response post-processing)
  - the TC3-HMAC-SHA256 signature adapter
JavaScript records are modelled as association lists in insertion order,
JavaScript assignment as update-in-place-or-append, and JavaScript
truthiness of strings as non-emptiness.  External capabilities (process
environment, script execution, URL parsing, hashing, wall clock, the
template helper p from the mcpc core package) are explicit parameters.
-/

set_option autoImplicit false

/-- Lookup in an association list with string keys, first match wins,
mirroring JavaScript property access on plain objects. -/
def jget {α : Type} : List (String × α) → String → Option α
  | [], _ => none
  | (k, v) :: rest, key => if k = key then some v else jget rest key

/-- JavaScript property assignment on a record: an existing key keeps its
position and gets the new value, a fresh key is appended at the end. -/
def jset {α : Type} : List (String × α) → String → α → List (String × α)
  | [], key, v => [(key, v)]
  | (k, w) :: rest, key, v =>
    if k = key then (key, v) :: rest else (k, w) :: jset rest key v

/-- JavaScript delete of a property: removes the first binding of the key. -/
def jdel {α : Type} : List (String × α) → String → List (String × α)
  | [], _ => []
  | (k, w) :: rest, key => if k = key then rest else (k, w) :: jdel rest key

/-- Object.assign target source, as used by extend in invoker.ts line 57:
every own key of the source is assigned onto the target in order. -/
def jassign {α : Type} (tgt src : List (String × α)) : List (String × α) :=
  src.foldl (fun acc kv => jset acc kv.1 kv.2) tgt

/-- JavaScript truthiness of an optional string (undefined and the empty
string are falsy). -/
def optTruthy : Option String → Bool
  | some s => !s.isEmpty
  | none => false

/-- JavaScript a or b for an optional string a and default b, as in
t || "fallback". -/
def jsOrS (a : Option String) (b : String) : String :=
  match a with
  | some s => if s.isEmpty then b else s
  | none => b

/-- JavaScript a or b over two optional strings, as in cfg.baseUrl ||
servers[0].url. -/
def jsOrOpt (a b : Option String) : Option String :=
  if optTruthy a then a else b

/-- Rendering of a possibly-absent string under JavaScript string coercion:
an absent (undefined) value prints as the literal text undefined. -/
def jsUndef : Option String → String
  | some s => s
  | none => "undefined"

/-- Character splitting worker: split a character list at every occurrence
of the separator, keeping empty pieces, as JavaScript split does. -/
def splitCharAux (c : Char) : List Char → List (List Char)
  | [] => [[]]
  | x :: xs =>
    match splitCharAux c xs with
    | [] => if x = c then [[], []] else [[x]]
    | h :: t => if x = c then [] :: h :: t else (x :: h) :: t

/-- JavaScript String.prototype.split with a one-character separator (the
only separators the sources use). -/
def sSplitChar (c : Char) (s : String) : List String :=
  (splitCharAux c s.data).map String.mk

/-- ASCII lower-casing, the effect of toLowerCase on the header keys and
methods the sources handle. -/
def sToLower (s : String) : String :=
  String.mk (s.data.map Char.toLower)

/-- ASCII upper-casing, the effect of toUpperCase in the sources. -/
def sToUpper (s : String) : String :=
  String.mk (s.data.map Char.toUpper)

/-- JavaScript String.prototype.trim (whitespace from both ends). -/
def sTrim (s : String) : String :=
  String.mk (((s.data.dropWhile Char.isWhitespace).reverse.dropWhile
    Char.isWhitespace).reverse)

/-- Whether the second string is a prefix of the first. -/
def sStartsWith (s pre : String) : Bool :=
  pre.data.isPrefixOf s.data

/-- Numeric value of a digit list. -/
def digitsVal : List Char → Nat → Nat
  | [], acc => acc
  | c :: cs, acc => digitsVal cs (acc * 10 + (c.toNat - 48))

/-- Parse a string as a decimal natural number (the shape of array
indices lodash path access accepts). -/
def sToNat? (s : String) : Option Nat :=
  if !s.data.isEmpty && s.data.all Char.isDigit then some (digitsVal s.data 0)
  else none

/-- First n characters of a string (String.prototype.slice 0 n on the
ASCII payloads the truncation cap sees). -/
def sTake (s : String) (n : Nat) : String :=
  String.mk (s.data.take n)

/-- Lexicographic order on character lists. -/
def lexLe : List Char → List Char → Bool
  | [], _ => true
  | _ :: _, [] => false
  | c :: cs, d :: ds => if c = d then lexLe cs ds else decide (c < d)

/-- Lexicographic string comparison (the default sort order of
Array.prototype.sort on the ASCII keys the adapter signs, and the shape of
localeCompare on them). -/
def strLe (a b : String) : Bool :=
  lexLe a.data b.data

/-- JSON-like runtime values (the shapes exchanged with the invoker).
Numbers are restricted to integers, which covers every value the
specification and the tests exercise. -/
inductive JValue where
  | null
  | bool (b : Bool)
  | num (n : Int)
  | str (s : String)
  | arr (xs : List JValue)
  | obj (kvs : List (String × JValue))

/-- Lodash isObject: true for objects and arrays, false for null and
primitives. -/
def isObjectJ : JValue → Bool
  | .arr _ => true
  | .obj _ => true
  | _ => false

/-- JavaScript String(v) coercion, used when appending query parameters. -/
def jsToString : JValue → String
  | .null => "null"
  | .bool b => if b then "true" else "false"
  | .num n => toString n
  | .str s => s
  | .arr _ => ""
  | .obj _ => "[object Object]"

/-- Escape one character for a JSON string literal. -/
def jsonEscapeChar (c : Char) : String :=
  if c = '"' then "\\\""
  else if c = '\\' then "\\\\"
  else if c = '\n' then "\\n"
  else if c = '\r' then "\\r"
  else if c = '\t' then "\\t"
  else String.singleton c

/-- Escape a whole string for a JSON string literal. -/
def jsonEscape (s : String) : String :=
  String.join (s.data.map jsonEscapeChar)

mutual

/-- JSON.stringify with no spacing, as used for request bodies in
invoker.ts line 90. -/
def jsonStringify : JValue → String
  | .null => "null"
  | .bool b => if b then "true" else "false"
  | .num n => toString n
  | .str s => "\"" ++ jsonEscape s ++ "\""
  | .arr xs => "[" ++ jsonStringifyArr xs ++ "]"
  | .obj kvs => "\x7b" ++ jsonStringifyObj kvs ++ "\x7d"

/-- Comma-joined serialization of array elements. -/
def jsonStringifyArr : List JValue → String
  | [] => ""
  | [x] => jsonStringify x
  | x :: xs => jsonStringify x ++ "," ++ jsonStringifyArr xs

/-- Comma-joined serialization of object entries. -/
def jsonStringifyObj : List (String × JValue) → String
  | [] => ""
  | [(k, v)] => "\"" ++ jsonEscape k ++ "\":" ++ jsonStringify v
  | (k, v) :: kvs =>
    "\"" ++ jsonEscape k ++ "\":" ++ jsonStringify v ++ "," ++ jsonStringifyObj kvs

end

mutual

/-- JSON.stringify value null 2: pretty printing with two-space indent,
used only by the response truncation step. -/
def jsonStringifyP (ind : String) : JValue → String
  | .null => "null"
  | .bool b => if b then "true" else "false"
  | .num n => toString n
  | .str s => "\"" ++ jsonEscape s ++ "\""
  | .arr xs =>
    match xs with
    | [] => "[]"
    | _ => "[\n" ++ jsonStringifyPArr (ind ++ "  ") xs ++ "\n" ++ ind ++ "]"
  | .obj kvs =>
    match kvs with
    | [] => "\x7b\x7d"
    | _ => "\x7b\n" ++ jsonStringifyPObj (ind ++ "  ") kvs ++ "\n" ++ ind ++ "\x7d"

/-- Pretty serialization of array elements. -/
def jsonStringifyPArr (ind : String) : List JValue → String
  | [] => ""
  | [x] => ind ++ jsonStringifyP ind x
  | x :: xs => ind ++ jsonStringifyP ind x ++ ",\n" ++ jsonStringifyPArr ind xs

/-- Pretty serialization of object entries. -/
def jsonStringifyPObj (ind : String) : List (String × JValue) → String
  | [] => ""
  | [(k, v)] => ind ++ "\"" ++ jsonEscape k ++ "\": " ++ jsonStringifyP ind v
  | (k, v) :: kvs =>
    ind ++ "\"" ++ jsonEscape k ++ "\": " ++ jsonStringifyP ind v ++ ",\n" ++
      jsonStringifyPObj ind kvs

end

/-- Lodash get of a single path segment on a value: object key lookup, or
numeric index into an array. -/
def getKey (v : JValue) (seg : String) : Option JValue :=
  match v with
  | .obj kvs => jget kvs seg
  | .arr xs =>
    match sToNat? seg with
    | some i => xs.get? i
    | none => none
  | _ => none

/-- Lodash has for a single segment: the segment resolves on the value. -/
def hasKey (v : JValue) (seg : String) : Bool :=
  (getKey v seg).isSome

/-- Lodash get along a dot path already split into segments. -/
def getPath : JValue → List String → Option JValue
  | v, [] => some v
  | v, seg :: rest =>
    match getKey v seg with
    | some child => getPath child rest
    | none => none

/-- Lodash has along a split dot path. -/
def hasPath (v : JValue) (segs : List String) : Bool :=
  (getPath v segs).isSome

/-- Dot path splitting, "a.b.c" to [a, b, c]. -/
def splitPath (s : String) : List String :=
  sSplitChar '.' s

/-- Replace the element of a list at an index, when in bounds. -/
def listSetAt {α : Type} : List α → Nat → α → List α
  | [], _, _ => []
  | _ :: rest, 0, a => a :: rest
  | x :: rest, Nat.succ i, a => x :: listSetAt rest i a

/-- A fresh intermediate container for lodash set: an array when the next
segment is numeric, an object otherwise. -/
def freshFor (rest : List String) : JValue :=
  match rest with
  | r :: _ => if (sToNat? r).isSome then .arr [] else .obj []
  | [] => .obj []

/-- Lodash set along a split dot path, creating missing intermediate
containers.  Writing past the end of an array pads with null, which is how
the sparse holes JavaScript produces serialize under JSON.  Every caller
passes a non-empty path (a split string is never empty), on which the
exhausted-path case is the assigned leaf value. -/
def setPath : JValue → List String → JValue → JValue
  | _, [], nv => nv
  | v, seg :: rest, nv =>
    match v with
    | .obj kvs =>
      let child := (jget kvs seg).getD (freshFor rest)
      .obj (jset kvs seg (setPath child rest nv))
    | .arr xs =>
      match sToNat? seg with
      | some i =>
        match xs.get? i with
        | some child => .arr (listSetAt xs i (setPath child rest nv))
        | none =>
          let padded := xs ++ List.replicate (i - xs.length) JValue.null
          .arr (padded ++ [setPath (freshFor rest) rest nv])
      | none => v
    | _ => v

/-- Removal of a single segment from a value: object entry deletion, or
an array hole (serialized as null) at a numeric index. -/
def unsetKey (v : JValue) (seg : String) : JValue :=
  match v with
  | .obj kvs => .obj (jdel kvs seg)
  | .arr xs =>
    match sToNat? seg with
    | some i => .arr (listSetAt xs i .null)
    | none => v
  | _ => v

/-- Characters allowed inside a template identifier, after the first:
ASCII letters, digits and underscore (the regex class [A-Za-z0-9_]). -/
def isIdentChar (c : Char) : Bool :=
  c.isAlphanum || c = '_'

/-- A valid template identifier: a letter or underscore followed by
letters, digits or underscores (the regex [A-Za-z_][A-Za-z0-9_]*). -/
def validIdent (l : List Char) : Bool :=
  match l with
  | [] => false
  | c :: cs => (c.isAlpha || c = '_') && cs.all isIdentChar

/-- Scanner core for template substitution.  The second argument is none
outside a brace group and some acc (accumulated characters, reversed) after
an opening brace.  Equivalent to one global left-to-right pass of the regex
of processTemplateVariables in script-executor.ts line 88. -/
def scanT (repl : String → String) : List Char → Option (List Char) → String
  | [], none => ""
  | [], some acc => "\x7b" ++ String.mk acc.reverse
  | c :: rest, none =>
    if c = '\x7b' then scanT repl rest (some [])
    else String.singleton c ++ scanT repl rest none
  | c :: rest, some acc =>
    if c = '\x7d' then
      (if validIdent acc.reverse then repl (String.mk acc.reverse)
       else "\x7b" ++ String.mk acc.reverse ++ "\x7d") ++ scanT repl rest none
    else if c = '\x7b' then
      "\x7b" ++ String.mk acc.reverse ++ scanT repl rest (some [])
    else if isIdentChar c then scanT repl rest (some (c :: acc))
    else "\x7b" ++ String.mk acc.reverse ++ String.singleton c ++ scanT repl rest none

/-- Template substitution over a whole string with a replacement function
for each matched identifier. -/
def templateScan (repl : String → String) (s : String) : String :=
  scanT repl s.data none

/-- Replacement used by processTemplateVariables (script-executor.ts line
91): process.env[name] || env[name] || "", with JavaScript truthiness, so
an empty-string variable falls through to the next layer. -/
def jsTemplateRepl (procEnv env : List (String × String)) (name : String) : String :=
  jsOrS (jget procEnv name) (jsOrS (jget env name) "")

/-- processTemplateVariables value env from script-executor.ts lines 84-93,
with the ambient process environment passed explicitly. -/
def processTemplateVariables (procEnv : List (String × String)) (value : String)
    (env : List (String × String)) : String :=
  templateScan (jsTemplateRepl procEnv env) value

/-- Modelled from the spec: the replacement the specification words
describe for claim C6, where priority is by existence of the variable,
(1) process environment, (2) supplied env, (3) empty string.  Used only to
compare the specified behaviour with the code. -/
def claimTemplateRepl (procEnv env : List (String × String)) (name : String) : String :=
  match jget procEnv name with
  | some s => s
  | none =>
    match jget env name with
    | some s => s
    | none => ""

/-- Modelled from the spec: template substitution under the existence-based
priority of claim C6, for comparison against processTemplateVariables. -/
def claimTemplateSubst (procEnv : List (String × String)) (value : String)
    (env : List (String × String)) : String :=
  templateScan (claimTemplateRepl procEnv env) value

/-- isScript from script-executor.ts line 74: the trimmed string starts
with a shebang. -/
def isScriptStr (s : String) : Bool :=
  sStartsWith (sTrim s) "#!"

/-- External script execution capability: script text and extra environment
to captured standard output (executeScript spawns a process, which a pure
embedding must take as an oracle). -/
def ExecO : Type := String → List (String × String) → String

/-- processStringValue from script-executor.ts lines 98-110: scripts are
executed, other strings undergo template substitution. -/
def processStringValue (procEnv : List (String × String)) (ex : ExecO)
    (value : String) (env : List (String × String)) : String :=
  if isScriptStr value then ex value env
  else processTemplateVariables procEnv value env

/-- headerKeyToEnvVar from script-executor.ts line 116: lower-case and
replace dashes with underscores. -/
def headerKeyToEnvVar (k : String) : String :=
  String.intercalate "_" (sSplitChar '-' (sToLower k))

/-- The second alias registered by processHeaders (value-processor.ts line
59): dashes replaced by underscores, original case kept. -/
def underscoreAlias (k : String) : String :=
  String.intercalate "_" (sSplitChar '-' k)

mutual

/-- processValue from value-processor.ts lines 12-37: strings are resolved
by processStringValue, arrays element by element and objects key by key,
each child receiving the same env argument. -/
def processValue (procEnv : List (String × String)) (ex : ExecO) :
    JValue → List (String × String) → JValue
  | .str s, env => .str (processStringValue procEnv ex s env)
  | .arr xs, env => .arr (processValueArr procEnv ex xs env)
  | .obj kvs, env => .obj (processValueObj procEnv ex kvs env)
  | v, _ => v

/-- Elementwise resolution of an array under processValue. -/
def processValueArr (procEnv : List (String × String)) (ex : ExecO) :
    List JValue → List (String × String) → List JValue
  | [], _ => []
  | x :: xs, env =>
    processValue procEnv ex x env :: processValueArr procEnv ex xs env

/-- Keywise resolution of an object under processValue, in insertion
order, with an unchanged env for every sibling. -/
def processValueObj (procEnv : List (String × String)) (ex : ExecO) :
    List (String × JValue) → List (String × String) → List (String × JValue)
  | [], _ => []
  | (k, v) :: kvs, env =>
    (k, processValue procEnv ex v env) :: processValueObj procEnv ex kvs env

end

mutual

/-- Modelled from the spec: the object resolution claim C3 describes, in
which each resolved sibling is folded back into the env used by the
following siblings.  Used only to compare the specified behaviour with
processValue. -/
def processValueSpecFold (procEnv : List (String × String)) (ex : ExecO) :
    JValue → List (String × String) → JValue
  | .str s, env => .str (processStringValue procEnv ex s env)
  | .arr xs, env => .arr (processValueSpecFoldArr procEnv ex xs env)
  | .obj kvs, env => .obj (processValueSpecFoldObj procEnv ex kvs env)
  | v, _ => v

/-- Array case of the folded spec model (no cross-element propagation,
matching the spec). -/
def processValueSpecFoldArr (procEnv : List (String × String)) (ex : ExecO) :
    List JValue → List (String × String) → List JValue
  | [], _ => []
  | x :: xs, env =>
    processValueSpecFold procEnv ex x env :: processValueSpecFoldArr procEnv ex xs env

/-- Object case of the folded spec model: a string result of an earlier
key is registered in env for the later keys. -/
def processValueSpecFoldObj (procEnv : List (String × String)) (ex : ExecO) :
    List (String × JValue) → List (String × String) → List (String × JValue)
  | [], _ => []
  | (k, v) :: kvs, env =>
    let r := processValueSpecFold procEnv ex v env
    let env' :=
      match r with
      | .str s => jset env k s
      | _ => env
    (k, r) :: processValueSpecFoldObj procEnv ex kvs env'

end

/-- Worker of processHeaders (value-processor.ts lines 43-63): headers are
resolved in order and each result is registered in env under the two
underscore aliases of the header key, available to the later headers. -/
def processHeadersAux (procEnv : List (String × String)) (ex : ExecO) :
    List (String × String) → List (String × String) → List (String × String)
  | [], _ => []
  | (k, v) :: rest, env =>
    let r := processStringValue procEnv ex v env
    let env' := jset (jset env (headerKeyToEnvVar k) r) (underscoreAlias k) r
    (k, r) :: processHeadersAux procEnv ex rest env'

/-- processHeaders from value-processor.ts lines 43-63. -/
def processHeaders (procEnv : List (String × String)) (ex : ExecO)
    (headers : List (String × String)) : List (String × String) :=
  processHeadersAux procEnv ex headers []

/-- processRequestValues from value-processor.ts lines 86-109: headers
first, then path and input parameters; note that the path and input
parameters are resolved with an empty env, the header results are not
passed on. -/
def processRequestValues (procEnv : List (String × String)) (ex : ExecO)
    (headers : List (String × String)) (pathParams inputParams : JValue) :
    List (String × String) × JValue × JValue :=
  (processHeaders procEnv ex headers,
   processValue procEnv ex pathParams [],
   processValue procEnv ex inputParams [])

/-- The redaction sentinel SENSITIVE_MARK from invoker.ts line 24. -/
def SENSITIVE_MARK : String := "*SENSITIVE*"

/-- A declared parameter schema object, reduced to the one field the
translator reads (schema.type). -/
structure SchemaO where
  stype : Option String

/-- One OpenAPI operation parameter as the translator consumes it.  The
field loc is the in field of the parameter; v2type models the OpenAPI v2
style top-level type field, present or absent. -/
structure OParam where
  name : String
  loc : String
  schema : Option SchemaO := none
  v2type : Option String := none
  required : Bool := false
  descr : String := ""

/-- Parameter type resolution from processOperationParameters
(translator.ts lines 199-211): schema.type || "string" when a schema
object is present, else the v2 type || "string", else "string". -/
def computeParamType (par : OParam) : String :=
  match par.schema with
  | some s => jsOrS s.stype "string"
  | none =>
    match par.v2type with
    | some t => jsOrS (some t) "string"
    | none => "string"

/-- An entry of the generated inputParams schema: either a typed property
or the sensitive sentinel constant (translator.ts lines 252-262). -/
inductive SchemaEntry where
  | typed (t d : String)
  | sentinel (d : String)

/-- Truthiness test of the x-sensitive-params map at a name (translator.ts
line 214): the name maps to a non-empty literal. -/
def sensTruthy (sens : List (String × String)) (name : String) : Bool :=
  match jget sens name with
  | some v => !v.isEmpty
  | none => false

/-- The schema entry contributed for one parameter, after the sensitive
override of the parameter type. -/
def mkEntry (sens : List (String × String)) (par : OParam) : SchemaEntry :=
  let tp := if sensTruthy sens par.name then SENSITIVE_MARK else computeParamType par
  if tp = SENSITIVE_MARK then .sentinel par.descr else .typed tp par.descr

/-- One step of processOperationParameters (translator.ts lines 196-223):
path parameters contribute nothing here, query, body and formData
parameters are written into the inputParams properties and required
lists, other locations are ignored. -/
def opParamStep (sens : List (String × String))
    (st : List (String × SchemaEntry) × List String) (par : OParam) :
    List (String × SchemaEntry) × List String :=
  if par.loc = "path" then st
  else if par.loc = "query" || par.loc = "body" || par.loc = "formData" then
    (jset st.1 par.name (mkEntry sens par),
     if par.required then st.2 ++ [par.name] else st.2)
  else st

/-- The operation-level extensions and metadata the claims touch. -/
structure Operation where
  operationId : Option String := none
  tags : Option (List String) := none
  parameters : List OParam := []
  xSensitiveParams : List (String × String) := []
  xRemapPathToHeader : Option (List String) := none
  xCustomBaseUrl : Option String := none
  xIncludeResponseKeys : Option (List String) := none
  xExcludeResponseKeys : Option (List String) := none
  xSensitiveResponseFields : Option (List String) := none

/-- The inputParams properties and required lists built by
processOperationParameters for one operation. -/
def buildInputParams (op : Operation) : List (String × SchemaEntry) × List String :=
  op.parameters.foldl (opParamStep op.xSensitiveParams) ([], [])

/-- A filter rule of x-filter-rules (parser.ts lines 37-65). -/
structure FilterRule where
  pathPattern : Option String := none
  methodPattern : Option String := none
  operationIdPattern : Option String := none
  tags : Option (List String) := none
  exclude : Option Bool := none

/-- Proxy configuration of x-request-config. -/
structure ProxyCfg where
  url : String
  param : String

/-- The Tencent Cloud auth credential record.  Every field is optional at
runtime: the zod schema of parser.ts is never used to validate the loaded
document, so absent fields reach the adapter as undefined. -/
structure TCAuthConfig where
  secretId : Option String := none
  secretKey : Option String := none
  token : Option String := none
  service : Option String := none
  region : Option String := none
  version : Option String := none
  action : Option String := none

/-- x-request-config (parser.ts lines 68-108). -/
structure RequestCfg where
  baseUrl : Option String := none
  proxy : Option ProxyCfg := none
  headers : Option (List (String × String)) := none
  timeout : Option Int := none
  retries : Option Nat := none
  auth : Option TCAuthConfig := none

/-- x-response-config (parser.ts lines 111-135). -/
structure ResponseCfg where
  maxLength : Option Int := none
  includeResponseKeys : Option (List String) := none
  excludeResponseKeys : Option (List String) := none
  sensitiveResponseFields : Option (List String) := none

/-- The resolved specification document, reduced to the fields the claims
touch.  The paths map preserves insertion order; hasTencentScheme models
the presence of components.securitySchemes.TencentCloudAuth. -/
structure Spec where
  paths : List (String × List (String × Operation)) := []
  servers : List String := []
  xFilterRules : Option (List FilterRule) := none
  xRequestConfig : Option RequestCfg := none
  xResponseConfig : Option ResponseCfg := none
  xToolNameFormat : Option String := none
  xToolNamePre : Option String := none
  xToolNameSuf : Option String := none
  hasTencentScheme : Bool := false

/-- The HTTP methods the translator and the filter recognize
(translator.ts line 374, parser.ts line 247). -/
def allowedMethods : List String := ["get", "post", "put", "delete", "patch"]

/-- Modelled from the spec: the external template helper p of the mcpc
core package, which substitutes each brace placeholder by the mapped value
(specification section 4.2 step 2).  It reuses the template scanner with a
lookup-or-empty replacement. -/
def pFill (vals : List (String × String)) (tmpl : String) : String :=
  templateScan (fun n => (jget vals n).getD "") tmpl

/-- formatToolName from createBasicToolSchema (translator.ts lines 77-93):
without a configured format the name is method::path, otherwise the format
is wrapped in prefix and suffix placeholders and filled with method, path
and operationId. -/
def formatToolName (spec : Spec) (method path : String) (op : Operation) : String :=
  match spec.xToolNameFormat with
  | none => method ++ "::" ++ path
  | some tmpl =>
    pFill
      [("method", method), ("path", path),
       ("operationId", (op.operationId).getD ""),
       ("prefix", (spec.xToolNamePre).getD ""),
       ("suffix", (spec.xToolNameSuf).getD "")]
      ("\x7bprefix\x7d" ++ tmpl ++ "\x7bsuffix\x7d")

/-- The name and method of one built tool, the two fields
ensureUniqueToolNames reads and writes. -/
structure ToolN where
  name : String
  method : String

/-- The tool list the translator builds from the paths map, in path then
method iteration order (openapiToAIToolSchema, translator.ts lines
362-406), reduced to names and methods. -/
def buildToolNs (spec : Spec) : List ToolN :=
  (spec.paths.map (fun pm =>
    (pm.2.filter (fun mo => allowedMethods.contains mo.1)).map (fun mo =>
      ToolN.mk (formatToolName spec mo.1 pm.1 mo.2) mo.1))).flatten

/-- Worker of ensureUniqueToolNames (translator.ts lines 443-458) with the
nameCount record as accumulator: a first occurrence of a name registers
count one and keeps the name, a later occurrence bumps the count and gets
the uppercase method appended in brackets. -/
def euAux : List (String × Nat) → List ToolN → List ToolN
  | _, [] => []
  | cnt, t :: ts =>
    match jget cnt t.name with
    | none => t :: euAux (jset cnt t.name 1) ts
    | some n =>
      ToolN.mk (t.name ++ " [" ++ sToUpper t.method ++ "]") t.method ::
        euAux (jset cnt t.name (n + 1)) ts

/-- ensureUniqueToolNames from translator.ts lines 443-458. -/
def ensureUniqueToolNames (tools : List ToolN) : List ToolN :=
  euAux [] tools

/-- Membership test on a list of seen names (a structural Boolean
membership used by the renaming characterization). -/
def jmem : List String → String → Bool
  | [], _ => false
  | y :: ys, x => if y = x then true else jmem ys x

/-- Modelled from the spec: the renaming pass claim C5 describes, carrying
the list of already seen original names.  Used to characterize
ensureUniqueToolNames. -/
def uniqueNamesRef (seen : List String) : List ToolN → List ToolN
  | [] => []
  | t :: ts =>
    (bif jmem seen t.name then
      ToolN.mk (t.name ++ " [" ++ sToUpper t.method ++ "]") t.method
     else t) :: uniqueNamesRef (t.name :: seen) ts

/-- The final catalog names after translation (openapiToAIToolSchema line
409 followed by the name projection). -/
def openapiToolNames (spec : Spec) : List String :=
  (ensureUniqueToolNames (buildToolNs spec)).map ToolN.name

/-- Whether one filter rule matches an operation (parser.ts lines 255-285).
Regular-expression testing is an external capability retest pattern input.
A pattern field is only consulted when truthy; the operationId pattern is
only consulted when the operation has a truthy operationId; the tag
condition only applies when both the rule and the operation carry a tags
list. -/
def ruleMatches (retest : String → String → Bool) (path method : String)
    (op : Operation) (r : FilterRule) : Bool :=
  (!optTruthy r.pathPattern || retest (r.pathPattern.getD "") path) &&
  (!optTruthy r.methodPattern || retest (r.methodPattern.getD "") method) &&
  (!(optTruthy r.operationIdPattern && optTruthy op.operationId) ||
    retest (r.operationIdPattern.getD "") ((op.operationId).getD "")) &&
  (match r.tags, op.tags with
   | some rt, some ot => rt.any (fun t => ot.contains t)
   | _, _ => true)

/-- First-match-wins inclusion decision of filterSpec (parser.ts lines
253-290): the first matching rule decides, included unless the rule is
flagged exclude; with no matching rule the operation is excluded. -/
def includeOp (retest : String → String → Bool) (path method : String)
    (op : Operation) : List FilterRule → Bool
  | [] => false
  | r :: rs =>
    if ruleMatches retest path method op r then !(r.exclude.getD false)
    else includeOp retest path method op rs

/-- The filtered path item of one path of filterSpec: the allowed methods
whose operation a rule includes. -/
def filterPathItem (retest : String → String → Bool) (rules : List FilterRule)
    (path : String) (pitem : List (String × Operation)) : List (String × Operation) :=
  pitem.filter (fun mo =>
    allowedMethods.contains mo.1 && includeOp retest path mo.1 mo.2 rules)

/-- The freshly built filtered path map of filterSpec (parser.ts lines
239-301): per path, the allowed methods whose operation is included; paths
with no surviving method are dropped. -/
def filterPaths (retest : String → String → Bool) (spec : Spec)
    (rules : List FilterRule) : List (String × List (String × Operation)) :=
  spec.paths.filterMap (fun pm =>
    if (filterPathItem retest rules pm.1 pm.2).isEmpty then none
    else some (pm.1, filterPathItem retest rules pm.1 pm.2))

/-- filterSpec from parser.ts lines 233-306.  The source returns the very
spec object it was given after assigning the freshly built map to its
paths field (line 303), so the returned value is also the post-call state
of the input document. -/
def filterSpec (retest : String → String → Bool) (spec : Spec) : Spec :=
  match spec.xFilterRules with
  | none => spec
  | some rules =>
    if rules.isEmpty then spec
    else { spec with paths := filterPaths retest spec rules }

/-- A header value: the signature adapter stores both strings and the
numeric timestamp in its header map. -/
inductive HVal where
  | s (v : String)
  | n (v : Int)

/-- JavaScript truthiness of a header value. -/
def hvalTruthy : HVal → Bool
  | .s v => !v.isEmpty
  | .n v => v != 0

/-- String rendering of a header value. -/
def hvalToString : HVal → String
  | .s v => v
  | .n v => toString v

/-- The expression headersToSign.get(key) || "" of the adapter: a falsy
value renders as the empty string. -/
def hvalOrEmpty : Option HVal → String
  | some v => if hvalTruthy v then hvalToString v else ""
  | none => ""

/-- Hashing capabilities of the signature adapter: keyed HMAC-SHA256 with
raw and hex output, and plain SHA-256 with hex output. -/
structure CryptoO where
  hmacRaw : String → String → String
  hmacHex : String → String → String
  sha256Hex : String → String

/-- The yyyy-mm-dd UTC date string of a Unix timestamp in seconds
(getDate of the adapter), via the standard civil-from-days conversion. -/
def getDateStr (ts : Int) : String :=
  let days := Int.fdiv ts 86400
  let z := days + 719468
  let era := Int.fdiv z 146097
  let doe := z - era * 146097
  let yoe := (doe - doe / 1461 + doe / 36524 - doe / 146096) / 365
  let y := yoe + era * 400
  let doy := doe - (365 * yoe + yoe / 4 - yoe / 100)
  let mp := (5 * doy + 2) / 153
  let d := doy - (153 * mp + 2) / 5 + 1
  let m := mp + (if mp < 10 then 3 else -9)
  let y' := y + (if m ≤ 2 then 1 else 0)
  let pad2 := fun (n : Int) =>
    let t := "0" ++ toString n
    String.mk (t.data.drop (t.data.length - 2))
  toString y' ++ "-" ++ pad2 m ++ "-" ++ pad2 d

/-- Characters encodeURIComponent leaves unescaped. -/
def uriUnescaped (c : Char) : Bool :=
  c.isAlphanum || c = '-' || c = '_' || c = '.' || c = '!' || c = '~' ||
    c = '*' || c = '\'' || c = '(' || c = ')'

/-- Upper-case hex digit of a value below sixteen. -/
def hexDigit (n : Nat) : Char :=
  if n < 10 then Char.ofNat (48 + n) else Char.ofNat (55 + n)

/-- encodeURIComponent: unreserved characters pass, everything else is
percent-encoded bytewise over its UTF-8 encoding. -/
def encodeURIComponent (s : String) : String :=
  String.join (s.data.map (fun c =>
    if uriUnescaped c then String.singleton c
    else String.join ((String.singleton c).toUTF8.toList.map (fun b =>
      "%" ++ String.singleton (hexDigit (b.toNat / 16)) ++
        String.singleton (hexDigit (b.toNat % 16))))))

/-- Stable insertion of a pair into a list sorted ascending by key. -/
def insertByKey (p : String × String) : List (String × String) → List (String × String)
  | [] => [p]
  | q :: rest => if strLe p.1 q.1 then p :: q :: rest else q :: insertByKey p rest

/-- Stable sort of key-value pairs ascending by key, modelling the
localeCompare sort of the canonical query string. -/
def sortByKey : List (String × String) → List (String × String)
  | [] => []
  | p :: rest => insertByKey p (sortByKey rest)

/-- Insertion sort step for plain strings ascending. -/
def insertStr (x : String) : List String → List String
  | [] => [x]
  | y :: rest => if strLe x y then x :: y :: rest else y :: insertStr x rest

/-- Sort of the signed header names (Array.prototype.sort default order on
ASCII keys). -/
def sortStr : List String → List String
  | [] => []
  | x :: rest => insertStr x (sortStr rest)

/-- Header key re-casing of the adapter result loop: each dash segment is
capitalized, with the segment tc rendered as TC. -/
def formatHeaderKey (k : String) : String :=
  String.intercalate "-" ((sSplitChar '-' k).map (fun part =>
    if part = "tc" then "TC"
    else
      match part.data with
      | [] => ""
      | c :: cs => String.mk (c.toUpper :: cs)))

/-- generateTencentCloudSignature from the TC3-HMAC-SHA256 adapter, with
hashing and the wall clock (already floored to seconds) as explicit
capabilities.  Note that no credential field is validated anywhere on this
path: absent secret id and key are carried through under JavaScript
string coercion of undefined. -/
def generateTencentCloudSignature (co : CryptoO) (nowSec : Int)
    (method _path : String) (query : List (String × String))
    (headers : List (String × HVal)) (body : Option String)
    (ac : TCAuthConfig) : List (String × HVal) :=
  let timestamp := nowSec
  let date := getDateStr timestamp
  let host := jget headers "host"
  let service :=
    jsOrS ac.service
      (match host with
       | some h =>
         if hvalTruthy h then (sSplitChar '.' (hvalToString h)).headD "" else "service"
       | none => "service")
  let hts0 := headers.foldl (fun acc kv => jset acc (sToLower kv.1) kv.2) []
  let hts1 :=
    if optTruthy ac.action && !(jget hts0 "x-tc-action").isSome then
      jset hts0 "x-tc-action" (.s (sToLower (ac.action.getD "")))
    else hts0
  let hts2 :=
    if optTruthy ac.version && !(jget hts1 "x-tc-version").isSome then
      jset hts1 "x-tc-version" (.s (ac.version.getD ""))
    else hts1
  let hts3 :=
    if optTruthy ac.region && !(jget hts2 "x-tc-region").isSome then
      jset hts2 "x-tc-region" (.s (ac.region.getD ""))
    else hts2
  let hts4 := jset hts3 "x-tc-timestamp" (.n timestamp)
  let hts :=
    if optTruthy ac.token then jset hts4 "x-tc-token" (.s (ac.token.getD ""))
    else hts4
  let signedHeaders :=
    sortStr ((hts.map Prod.fst).filter (fun k => k = "content-type" || k = "host"))
  let canonicalHeaders :=
    String.join (signedHeaders.map (fun k => k ++ ":" ++ hvalOrEmpty (jget hts k) ++ "\n"))
  let signedHeadersString := String.intercalate ";" signedHeaders
  let hashedPayload := co.sha256Hex (body.getD "")
  let canonicalQueryString :=
    String.intercalate "&" ((sortByKey query).map (fun kv =>
      encodeURIComponent kv.1 ++ "=" ++ encodeURIComponent kv.2))
  let canonicalRequest :=
    String.intercalate "\n"
      [sToUpper method, "/", canonicalQueryString, canonicalHeaders,
       signedHeadersString, hashedPayload]
  let credentialScope := date ++ "/" ++ service ++ "/tc3_request"
  let hashedCanonicalRequest := co.sha256Hex canonicalRequest
  let stringToSign :=
    String.intercalate "\n"
      ["TC3-HMAC-SHA256", toString timestamp, credentialScope, hashedCanonicalRequest]
  let secretDate := co.hmacRaw ("TC3" ++ jsUndef ac.secretKey) date
  let secretService := co.hmacRaw secretDate service
  let secretSigning := co.hmacRaw secretService "tc3_request"
  let signature := co.hmacHex secretSigning stringToSign
  let authorization :=
    "TC3-HMAC-SHA256 Credential=" ++ jsUndef ac.secretId ++ "/" ++
      credentialScope ++ ", SignedHeaders=" ++ signedHeadersString ++
      ", Signature=" ++ signature
  let result0 : List (String × HVal) := [("Authorization", .s authorization)]
  let result1 := hts.foldl (fun acc kv => jset acc (formatHeaderKey kv.1) kv.2) result0
  jdel result1 "X-TC-Service"

/-- The parsed URL state the invoker manipulates: everything before the
path, the path name, and the search parameter list. -/
structure UrlM where
  base : String
  pathname : String
  search : List (String × String)

/-- External capabilities of the invoker: the WHATWG URL parser and
serializer, the template helper p applied to the path, the hashing
capabilities and the wall clock of the signature adapter. -/
structure InvokeEnv where
  parseUrl : String → UrlM
  urlToString : UrlM → String
  fillPath : String → List (String × JValue) → String
  crypto : CryptoO
  nowSec : Int

/-- The extended tool schema fields invoke reads. -/
structure ExtTool where
  name : String
  method : Option String := none
  path : String
  rawOp : Operation

/-- The caller parameters of invoke. -/
structure CallParams where
  pathParams : List (String × JValue) := []
  inputParams : List (String × JValue) := []

/-- The constructed request before execution: requestOptions of invoker.ts
lines 129-137 plus the final URL. -/
structure RequestPlan where
  url : UrlM
  method : String
  headers : List (String × HVal)
  body : Option String
  timeoutMs : Int

/-- The x-remap-path-to-header loop of invoke (invoker.ts lines 70-77):
one leading path segment is consumed per listed header key, in declared
order; a consumed segment is written to the header only when non-empty,
and segments past the list length are dropped. -/
def applyRemap : List (String × HVal) → List String → List String → List (String × HVal)
  | hdrs, [], _ => hdrs
  | hdrs, _ :: hks, [] => applyRemap hdrs hks []
  | hdrs, hk :: hks, s :: items =>
    applyRemap (if s.isEmpty then hdrs else jset hdrs hk (.s s)) hks items

/-- The effective method of invoke (invoker.ts line 51). -/
def invokeMethod (tool : ExtTool) : String :=
  match tool.method with
  | none => "get"
  | some m => if (sToLower m).isEmpty then "get" else sToLower m

/-- The input parameters after the sensitive overrides are assigned over
the caller values (invoker.ts line 57). -/
def extendInputParams (callerInput : List (String × JValue))
    (sens : List (String × String)) : List (String × JValue) :=
  jassign callerInput (sens.map (fun kv => (kv.1, JValue.str kv.2)))

/-- Request construction of invoke, invoker.ts lines 44-137: configuration
defaults, sensitive parameter override, validity check, URL construction,
path-to-header remap, query or body encoding, optional Tencent Cloud
signing, optional proxy rewrite.  Note that no value-resolution step
appears on this path: the configured headers and caller parameters are
used verbatim. -/
def invokePlan (ie : InvokeEnv) (spec : Spec) (tool : ExtTool)
    (params : CallParams) : Except String RequestPlan :=
  let rcg := (spec.xRequestConfig).getD {}
  let baseUrl := jsOrOpt rcg.baseUrl spec.servers.head?
  let headers := (rcg.headers).getD []
  let timeout := (rcg.timeout).getD 30000
  let method := invokeMethod tool
  let path := ie.fillPath tool.path params.pathParams
  let op := tool.rawOp
  let specificUrl := op.xCustomBaseUrl
  let inputParams := extendInputParams params.inputParams op.xSensitiveParams
  if (!optTruthy specificUrl && !optTruthy baseUrl) || method.isEmpty || path.isEmpty then
    .error "Invalid tool configuration"
  else
    let requestHeaders0 : List (String × HVal) := headers.map (fun kv => (kv.1, .s kv.2))
    let url0 := ie.parseUrl (match specificUrl with | some u => u | none => baseUrl.getD "")
    let pathItems := (sSplitChar '/' path).drop 1
    let st1 :=
      match op.xRemapPathToHeader with
      | some hks => (applyRemap requestHeaders0 hks pathItems, url0)
      | none => (requestHeaders0, { url0 with pathname := path })
    let url2 :=
      if method = "get" && !inputParams.isEmpty then
        { st1.2 with search := st1.2.search ++ inputParams.map (fun kv => (kv.1, jsToString kv.2)) }
      else st1.2
    let st2 :=
      if method != "get" && !inputParams.isEmpty then
        (jset st1.1 "content-type" (.s "application/json"),
         some (jsonStringify (.obj inputParams)))
      else (st1.1, none)
    let requestHeaders3 :=
      if spec.hasTencentScheme && (rcg.auth).isSome then
        let ac0 := (rcg.auth).getD {}
        let ac1 :=
          if optTruthy op.operationId && !optTruthy ac0.action then
            { ac0 with action := op.operationId }
          else ac0
        let ac2 :=
          match jget st2.1 "x-tc-service" with
          | some v => if hvalTruthy v then { ac1 with service := some (hvalToString v) } else ac1
          | none => ac1
        generateTencentCloudSignature ie.crypto ie.nowSec method path url2.search st2.1 st2.2 ac2
      else st2.1
    let url3 :=
      match rcg.proxy with
      | some pc =>
        let nu := ie.parseUrl pc.url
        { nu with search := jset nu.search pc.param (ie.urlToString url2) }
      | none => url2
    .ok { url := url3, method := sToUpper method, headers := requestHeaders3,
          body := st2.2, timeoutMs := timeout }

/-- The transport response shape the retry loop distinguishes: a resolved
response of any HTTP status, versus a thrown transport error. -/
structure FetchResponse where
  status : Nat := 200
  statusText : String := ""
  contentType : String := ""
  body : String := ""

/-- Worker of the retry loop of invoke (invoker.ts lines 145-159),
tracking the current attempt index and the remaining retries.  The result
carries the outcome, the number of fetch calls made, and the list of
backoff waits in milliseconds. -/
def invokeFetchAux (fetchCap : Nat → Except String FetchResponse)
    (toolName : String) : Nat → Nat → Except String FetchResponse × Nat × List Nat
  | attempt, remaining =>
    match fetchCap attempt with
    | .ok r => (.ok r, 1, [])
    | .error e =>
      match remaining with
      | 0 => (.error ("Failed to invoke tool " ++ toolName ++ ": " ++ e), 1, [])
      | Nat.succ rem =>
        let t := invokeFetchAux fetchCap toolName (attempt + 1) rem
        (t.1, t.2.1 + 1, 2 ^ attempt * 1000 :: t.2.2)

/-- The retry loop of invoke with a configured retry count: attempts run
from zero to retries, a resolved response ends the loop at once, a throw
on the last attempt raises the aggregated tool error. -/
def invokeFetchLoop (fetchCap : Nat → Except String FetchResponse)
    (toolName : String) (retries : Nat) : Except String FetchResponse × Nat × List Nat :=
  invokeFetchAux fetchCap toolName 0 retries

/-- The exclude navigation of transformItem (invoker.ts lines 257-277),
expressed as a pure update: walk the parent segments while the current
value is an object (in the lodash sense) owning the segment, then delete
the final segment when the reached parent is an object owning it. -/
def navDelete : JValue → List String → String → JValue
  | cur, [], last =>
    if isObjectJ cur && hasKey cur last then unsetKey cur last else cur
  | cur, seg :: rest, last =>
    if isObjectJ cur && hasKey cur seg then
      match cur with
      | .obj kvs =>
        match jget kvs seg with
        | some child => .obj (jset kvs seg (navDelete child rest last))
        | none => cur
      | .arr xs =>
        match sToNat? seg with
        | some i =>
          match xs.get? i with
          | some child => .arr (listSetAt xs i (navDelete child rest last))
          | none => cur
        | none => cur
      | _ => cur
    else cur

/-- Exclusion of one dot path from an item (one iteration of the
excludeKeys loop of transformItem). -/
def excludeOne (item : JValue) (pathString : String) : JValue :=
  match splitPath pathString with
  | [] => item
  | s :: rest =>
    navDelete item ((s :: rest).dropLast) ((s :: rest).getLast (by simp))

/-- applyExclusions of transformItem (invoker.ts lines 241-280). -/
def applyExclusions (excl : List String) (item : JValue) : JValue :=
  if excl.isEmpty || !isObjectJ item then item
  else excl.foldl excludeOne item

/-- One sensitive-field masking step of transformItem: when the dot path
exists, its value is overwritten with the sentinel. -/
def sensitizeOne (item : JValue) (pathString : String) : JValue :=
  if hasPath item (splitPath pathString) then
    setPath item (splitPath pathString) (.str SENSITIVE_MARK)
  else item

/-- applySensitization of transformItem (invoker.ts lines 288-311). -/
def applySensitization (sens : List String) (item : JValue) : JValue :=
  if sens.isEmpty || !isObjectJ item then item
  else sens.foldl sensitizeOne item

/-- One inclusion step of createInitialItem: a dot path present in the
source is copied into the accumulator, an absent one contributes
nothing. -/
def includeStep (original : JValue) (acc : JValue) (pathString : String) : JValue :=
  match getPath original (splitPath pathString) with
  | some v => setPath acc (splitPath pathString) v
  | none => acc

/-- createInitialItem of transformItem (invoker.ts lines 216-232): with a
non-empty include list a fresh object is built from the listed paths,
otherwise the item is deep-copied (the identity in a value model). -/
def createInitialItem (inc : List String) (item : JValue) : JValue :=
  if inc.isEmpty then item
  else inc.foldl (includeStep item) (.obj [])

/-- transformItem from invoker.ts lines 198-315: include, then exclude,
then sensitize, with non-objects passed through unchanged. -/
def transformItem (item : JValue) (inc excl sens : List String) : JValue :=
  if !isObjectJ item then item
  else applySensitization sens (applyExclusions excl (createInitialItem inc item))

/-- The or-chain op extension || global response configuration || empty
list of postProcess, under JavaScript truthiness (a present empty list
already wins). -/
def jsOrList (a b : Option (List String)) : List String :=
  match a with
  | some l => l
  | none =>
    match b with
    | some l => l
    | none => []

/-- truncateData from invoker.ts lines 376-390: with a truthy maximum
length, an over-long pretty serialization is replaced by a truncation
notice object. -/
def truncateData (data : JValue) (maxLength : Option Int) : JValue :=
  match maxLength with
  | none => data
  | some n =>
    if n = 0 then data
    else
      let stringified := jsonStringifyP "" data
      if (stringified.length : Int) ≤ n then data
      else
        .obj [("message", .str ("Response was truncated (length: " ++
                 toString stringified.length ++ ", max: " ++ toString n ++ ")")),
              ("truncatedData", .str (sTake stringified n.toNat ++ "..."))]

/-- postProcess from invoker.ts lines 322-374: the three key lists are
resolved from the operation extensions with the global response
configuration as fallback; with all three empty the data passes through;
otherwise a top-level array is transformed item by item and anything else
as a single item; finally the length cap is applied. -/
def postProcess (spec : Spec) (rawOp : Option Operation) (data : JValue) : JValue :=
  let rcg := (spec.xResponseConfig).getD {}
  let processed :=
    match rawOp with
    | none => data
    | some op =>
      let inc := jsOrList op.xIncludeResponseKeys rcg.includeResponseKeys
      let excl := jsOrList op.xExcludeResponseKeys rcg.excludeResponseKeys
      let sens := jsOrList op.xSensitiveResponseFields rcg.sensitiveResponseFields
      if inc.isEmpty && excl.isEmpty && sens.isEmpty then data
      else
        match data with
        | .arr xs => .arr (xs.map (fun it => transformItem it inc excl sens))
        | d => transformItem d inc excl sens
  truncateData processed rcg.maxLength

/-! Shared lemmas about the record operations. -/

theorem jget_jset {α : Type} (l : List (String × α)) (k : String) (v : α)
    (x : String) : jget (jset l k v) x = if x = k then some v else jget l x := by
  induction l with
  | nil =>
    by_cases hx : x = k
    · simp [jset, jget, hx]
    · simp [jset, jget, hx, Ne.symm hx]
  | cons kv rest ih =>
    obtain ⟨k', w⟩ := kv
    by_cases hk : k' = k
    · subst hk
      by_cases hx : x = k'
      · simp [jset, jget, hx]
      · simp [jset, jget, hx, Ne.symm hx]
    · by_cases hx : k' = x
      · have hxk : ¬ x = k := by
          intro h
          exact hk (hx.trans h)
        simp [jset, jget, hk, hx, hxk]
      · simp [jset, jget, hk, hx, ih]

theorem jget_isSome_mem {α : Type} (l : List (String × α)) (x : String) :
    (jget l x).isSome = (l.map Prod.fst).contains x := by
  induction l with
  | nil => simp [jget]
  | cons kv rest ih =>
    obtain ⟨k, v⟩ := kv
    by_cases hx : k = x
    · simp [jget, hx]
    · simp [jget, hx, ih, Ne.symm hx]


/-! Claim C4: the retry loop of invoke. -/

theorem waits_shift (a k : Nat) :
    (List.range (k + 1)).map (fun i => 2 ^ (a + i) * 1000) =
      2 ^ a * 1000 :: (List.range k).map (fun i => 2 ^ (a + 1 + i) * 1000) := by
  rw [List.range_succ_eq_map, List.map_cons, List.map_map]
  refine congrArg₂ List.cons (by simp) ?_
  apply List.map_congr_left
  intro i _
  simp only [Function.comp]
  have h' : a + Nat.succ i = a + 1 + i := by omega
  rw [h']


theorem invokeFetchAux_ok (cap : Nat → Except String FetchResponse)
    (name : String) (resp : FetchResponse) :
    ∀ (k : Nat) (a rem : Nat), k ≤ rem →
      (∀ i, i < k → ∃ e, cap (a + i) = .error e) →
      cap (a + k) = .ok resp →
      invokeFetchAux cap name a rem =
        (.ok resp, k + 1, (List.range k).map (fun i => 2 ^ (a + i) * 1000)) := by
  intro k
  induction k with
  | zero =>
    intro a rem _ _ hok
    simp only [Nat.add_zero] at hok
    simp only [invokeFetchAux, hok, List.range_zero, List.map_nil]
  | succ k ih =>
    intro a rem hle herr hok
    obtain ⟨e, he⟩ := herr 0 (Nat.succ_pos k)
    simp only [Nat.add_zero] at he
    cases rem with
    | zero => omega
    | succ rem' =>
      have ih' := ih (a + 1) rem' (by omega)
        (fun i hi => by
          obtain ⟨e', he'⟩ := herr (i + 1) (by omega)
          exact ⟨e', by rw [← he']; ring_nf⟩)
        (by rw [← hok]; ring_nf)
      simp only [invokeFetchAux, he, ih', waits_shift]

theorem invokeFetchAux_allfail (cap : Nat → Except String FetchResponse)
    (name : String) :
    ∀ (rem a : Nat), (∀ i, i ≤ rem → ∃ e, cap (a + i) = .error e) →
      ∃ elast, cap (a + rem) = .error elast ∧
        invokeFetchAux cap name a rem =
          (.error ("Failed to invoke tool " ++ name ++ ": " ++ elast), rem + 1,
           (List.range rem).map (fun i => 2 ^ (a + i) * 1000)) := by
  intro rem
  induction rem with
  | zero =>
    intro a herr
    obtain ⟨e, he⟩ := herr 0 (Nat.le_refl 0)
    simp only [Nat.add_zero] at he
    exact ⟨e, by simpa using he,
      by simp only [invokeFetchAux, he, List.range_zero, List.map_nil]⟩
  | succ rem' ih =>
    intro a herr
    obtain ⟨e, he⟩ := herr 0 (Nat.zero_le _)
    simp only [Nat.add_zero] at he
    obtain ⟨elast, hlast, hrec⟩ := ih (a + 1)
      (fun i hi => by
        obtain ⟨e', he'⟩ := herr (i + 1) (by omega)
        exact ⟨e', by rw [← he']; ring_nf⟩)
    refine ⟨elast, by rw [← hlast]; ring_nf, ?_⟩
    simp only [invokeFetchAux, he, hrec, waits_shift]

theorem invokeFetchAux_calls_le (cap : Nat → Except String FetchResponse)
    (name : String) :
    ∀ (rem a : Nat), (invokeFetchAux cap name a rem).2.1 ≤ rem + 1 := by
  intro rem
  induction rem with
  | zero =>
    intro a
    cases h : cap a <;> simp only [invokeFetchAux, h] <;> omega
  | succ rem' ih =>
    intro a
    cases h : cap a with
    | ok r => simp only [invokeFetchAux, h]; omega
    | error e =>
      have := ih (a + 1)
      rw [invokeFetchAux.eq_def]
      simp only [h]
      omega

/-- Claim C4: with a configured retry count r, the retry loop of invoke
calls the fetch capability at most r plus one times; an attempt that
resolves to a response (any HTTP status, including non-2xx) ends the loop
at once with that response after exactly one call per attempt made, with a
wait of 2 to the i seconds (stored in milliseconds) after each failed
attempt i below r; and when every attempt up to r throws, the loop raises
a single error embedding the tool name and the message of the last
underlying error, after exactly r plus one calls. -/
theorem c4_retry_loop :
    (∀ (cap : Nat → Except String FetchResponse) (name : String) (r : Nat),
      (invokeFetchLoop cap name r).2.1 ≤ r + 1) ∧
    (∀ (cap : Nat → Except String FetchResponse) (name : String) (r k : Nat)
        (resp : FetchResponse), k ≤ r →
      (∀ i, i < k → ∃ e, cap i = .error e) →
      cap k = .ok resp →
      invokeFetchLoop cap name r =
        (.ok resp, k + 1, (List.range k).map (fun i => 2 ^ i * 1000))) ∧
    (∀ (cap : Nat → Except String FetchResponse) (name : String) (r : Nat),
      (∀ i, i ≤ r → ∃ e, cap i = .error e) →
      ∃ elast, cap r = .error elast ∧
        invokeFetchLoop cap name r =
          (.error ("Failed to invoke tool " ++ name ++ ": " ++ elast), r + 1,
           (List.range r).map (fun i => 2 ^ i * 1000))) := by
  refine ⟨?_, ?_, ?_⟩
  · intro cap name r
    exact invokeFetchAux_calls_le cap name r 0
  · intro cap name r k resp hk herr hok
    have h := invokeFetchAux_ok cap name resp k 0 r hk
      (fun i hi => by simpa using herr i hi) (by simpa using hok)
    simpa using h
  · intro cap name r herr
    obtain ⟨elast, h1, h2⟩ := invokeFetchAux_allfail cap name r 0
      (fun i hi => by simpa using herr i hi)
    exact ⟨elast, by simpa using h1, by simpa using h2⟩

/-- The fetch capability of the specification scenario for claim C4: the
first two attempts throw, the third resolves with a non-2xx status. -/
def c4cap : Nat → Except String FetchResponse :=
  fun i => if i < 2 then .error "boom" else .ok { status := 500 }

/-- The response the third attempt of c4cap resolves to. -/
def c4resp : FetchResponse := { status := 500 }

/-- Witness for claim C4: a fetch capability failing twice then
succeeding, with two configured retries, succeeds after exactly three
calls with backoff waits of one and two seconds. -/
theorem c4_retry_loop_witness :
    invokeFetchLoop c4cap "t" 2 = (.ok c4resp, 3, [1000, 2000]) := by
  have h := c4_retry_loop.2.1 c4cap "t" 2 2 c4resp (by omega)
    (fun i hi => ⟨"boom", by
      have h2 : i = 0 ∨ i = 1 := by omega
      rcases h2 with h' | h' <;> subst h' <;> rfl⟩)
    rfl
  rw [h]
  rfl

/-! Claim C5: tool name collision handling. -/

theorem euAux_eq_ref (ts : List ToolN) :
    ∀ (cnt : List (String × Nat)) (seen : List String),
      (∀ x, (jget cnt x).isSome = jmem seen x) →
      euAux cnt ts = uniqueNamesRef seen ts := by
  induction ts with
  | nil => intro cnt seen _; rfl
  | cons t ts ih =>
    intro cnt seen hinv
    have hmem := hinv t.name
    have hnext : ∀ (m : Nat) x,
        (jget (jset cnt t.name m) x).isSome = jmem (t.name :: seen) x := by
      intro m x
      rw [jget_jset]
      by_cases hx : x = t.name
      · simp [hx, jmem]
      · simp [hx, jmem, hinv x, Ne.symm hx]
    cases hc : jget cnt t.name with
    | none =>
      rw [hc] at hmem
      simp only [Option.isSome_none] at hmem
      simp only [euAux, hc, uniqueNamesRef, ← hmem, Bool.cond_false]
      exact congrArg _ (ih _ _ (hnext 1))
    | some n =>
      rw [hc] at hmem
      simp only [Option.isSome_some] at hmem
      simp only [euAux, hc, uniqueNamesRef, ← hmem, Bool.cond_true]
      exact congrArg _ (ih _ _ (hnext (n + 1)))

/-- Claim C5 (amended): the renaming pass keeps the first occurrence of
every original name and appends the bracketed uppercase method to every
later tool whose original name was already seen, in one deterministic
pass; in the two-operation collision scenario of the specification the
resulting names are distinct.  (The pass does not guarantee pairwise
distinct names in general, see the counterexample.) -/
theorem c5_unique_names_amended :
    (∀ tools : List ToolN, ensureUniqueToolNames tools = uniqueNamesRef [] tools) ∧
    (∀ (nm m1 m2 : String),
      ensureUniqueToolNames [ToolN.mk nm m1, ToolN.mk nm m2] =
        [ToolN.mk nm m1, ToolN.mk (nm ++ " [" ++ sToUpper m2 ++ "]") m2] ∧
      nm ≠ nm ++ " [" ++ sToUpper m2 ++ "]") := by
  constructor
  · intro tools
    exact euAux_eq_ref tools [] [] (fun x => by simp [jget, jmem])
  · intro nm m1 m2
    constructor
    · simp [ensureUniqueToolNames, euAux, jget, jset]
    · intro h
      have hlen := congrArg String.length h
      have h1 : (" [" : String).length = 2 := rfl
      have h2 : ("]" : String).length = 1 := rfl
      rw [String.length_append, String.length_append, String.length_append,
        h1, h2] at hlen
      omega

/-- A specification with a configured name format under which three
operations produce the same base name with the same method. -/
def c5Spec : Spec :=
  { paths := [("/a", [("post", { operationId := some "op" })]),
              ("/b", [("post", { operationId := some "op" })]),
              ("/c", [("post", { operationId := some "op" })])],
    xToolNameFormat := some "\x7boperationId\x7d" }

/-- Counterexample to claim C5: with three operations sharing the base
name op and the method POST, the translated catalog carries the name
op [POST] twice, so catalog names are not pairwise distinct. -/
theorem c5_counterexample :
    openapiToolNames c5Spec = ["op", "op [POST]", "op [POST]"] ∧
    ¬ (openapiToolNames c5Spec).Nodup := by
  exact ⟨by decide, by decide⟩

/-! Claim C6: template substitution. -/

theorem scanT_nobrace (repl : String → String) :
    ∀ (l : List Char), (∀ c ∈ l, c ≠ '\x7b') → scanT repl l none = String.mk l := by
  intro l
  induction l with
  | nil => intro _; rfl
  | cons c rest ih =>
    intro h
    have hc : c ≠ '\x7b' := h c (List.mem_cons_self c rest)
    have hrest := ih (fun d hd => h d (List.mem_cons_of_mem c hd))
    simp only [scanT, if_neg hc, hrest]
    rfl

theorem scanT_ident (repl : String → String) :
    ∀ (l : List Char) (acc rest : List Char),
      (∀ c ∈ l, isIdentChar c = true) →
      scanT repl (l ++ '\x7d' :: rest) (some acc) =
        (if validIdent (acc.reverse ++ l) then repl (String.mk (acc.reverse ++ l))
         else "\x7b" ++ String.mk (acc.reverse ++ l) ++ "\x7d") ++
          scanT repl rest none := by
  intro l
  induction l with
  | nil =>
    intro acc rest _
    simp [scanT]
  | cons c l' ih =>
    intro acc rest h
    have hc : isIdentChar c = true := h c (List.mem_cons_self c l')
    have hne1 : c ≠ '\x7d' := by
      intro he
      rw [he] at hc
      simp [isIdentChar] at hc
    have hne2 : c ≠ '\x7b' := by
      intro he
      rw [he] at hc
      simp [isIdentChar] at hc
    have hl' := ih (c :: acc) rest (fun d hd => h d (List.mem_cons_of_mem c hd))
    rw [List.reverse_cons, List.append_assoc, List.singleton_append] at hl'
    simp only [List.cons_append, scanT, if_neg hne1, if_neg hne2, if_pos hc]
    exact hl'

theorem string_mk_data (s : String) : String.mk s.data = s := by
  cases s
  rfl

theorem string_append_nilstr (s : String) : s ++ "" = s := by
  cases s
  show String.mk (_ ++ []) = _
  rw [List.append_nil]

/-- Claim C6 (amended): template substitution replaces each brace group
holding a valid identifier with the first non-empty value among (1) the
process environment and (2) the supplied env mapping, else the empty
string — a variable that is set to the empty string is treated as absent
and falls through to the next layer; text without an opening brace is left
untouched, as is a brace group that does not hold a valid identifier; and
the specification example resolves as stated. -/
theorem c6_template_amended :
    (processTemplateVariables [("B", "2")] "\x7bA\x7d-\x7bB\x7d" [("A", "1")] = "1-2") ∧
    (∀ (procEnv env : List (String × String)) (s : String),
      (∀ c ∈ s.data, c ≠ '\x7b') →
      processTemplateVariables procEnv s env = s) ∧
    (processTemplateVariables [("A", "x")] "\x7b1a\x7d" [] = "\x7b1a\x7d") ∧
    (∀ (procEnv env : List (String × String)) (name : String),
      validIdent name.data = true →
      processTemplateVariables procEnv ("\x7b" ++ name ++ "\x7d") env =
        jsOrS (jget procEnv name) (jsOrS (jget env name) "")) := by
  refine ⟨by decide, ?_, by decide, ?_⟩
  · intro procEnv env s h
    show scanT (jsTemplateRepl procEnv env) s.data none = s
    rw [scanT_nobrace _ s.data h, string_mk_data]
  · intro procEnv env name hvalid
    have hchars : ∀ c ∈ name.data, isIdentChar c = true := by
      intro c hc
      cases hd : name.data with
      | nil => rw [hd] at hc; simp at hc
      | cons c0 cs =>
        rw [hd] at hvalid hc
        simp only [validIdent, Bool.and_eq_true] at hvalid
        rcases List.mem_cons.mp hc with h0 | h0
        · subst h0
          rcases Bool.or_eq_true_iff.mp hvalid.1 with h1 | h1
          · simp [isIdentChar, Char.isAlphanum, h1]
          · have h2 : c = '_' := of_decide_eq_true h1
            simp [isIdentChar, h2]
        · exact (List.all_eq_true.mp hvalid.2) c h0
    show scanT (jsTemplateRepl procEnv env) ("\x7b" ++ name ++ "\x7d").data none = _
    have hdata : ("\x7b" ++ name ++ "\x7d").data = '\x7b' :: (name.data ++ ['\x7d']) := by
      show (String.mk _).data = _
      simp
    rw [hdata]
    have hstep : scanT (jsTemplateRepl procEnv env) ('\x7b' :: (name.data ++ ['\x7d'])) none =
        scanT (jsTemplateRepl procEnv env) (name.data ++ ['\x7d']) (some []) := by
      simp [scanT]
    rw [hstep, scanT_ident _ name.data [] [] hchars]
    simp only [List.reverse_nil, List.nil_append, hvalid, if_pos]
    rw [string_mk_data]
    show jsTemplateRepl procEnv env name ++ scanT _ [] none = _
    have hnil : scanT (jsTemplateRepl procEnv env) [] none = "" := rfl
    rw [hnil, string_append_nilstr]
    rfl

/-- Witness for claim C6: the no-brace clause applied at a concrete
string. -/
theorem c6_template_amended_witness :
    processTemplateVariables [] "abc" [] = "abc" ∧
    processTemplateVariables [("N", "7")] "\x7bN\x7d" [] = "7" := by
  constructor
  · exact c6_template_amended.2.1 [] [] "abc" (by decide)
  · have h := c6_template_amended.2.2.2 [("N", "7")] [] "N" (by decide)
    simpa using h

/-- Counterexample to claim C6: a process-environment variable that is
present but set to the empty string does not take priority as the stated
existence-based order demands; the code falls through to the supplied env
mapping value, while the claimed priority would yield the empty string. -/
theorem c6_counterexample :
    processTemplateVariables [("A", "")] "\x7bA\x7d" [("A", "x")] = "x" ∧
    claimTemplateSubst [("A", "")] "\x7bA\x7d" [("A", "x")] = "" ∧
    ("x" : String) ≠ "" := by
  exact ⟨by decide, by decide, by decide⟩

/-! Claim C3: object resolution in the Value Resolver. -/

theorem processValueObj_map (procEnv : List (String × String)) (ex : ExecO)
    (kvs : List (String × JValue)) (env : List (String × String)) :
    processValueObj procEnv ex kvs env =
      kvs.map (fun kv => (kv.1, processValue procEnv ex kv.2 env)) := by
  induction kvs with
  | nil => rfl
  | cons kv rest ih =>
    obtain ⟨k, v⟩ := kv
    simp only [processValueObj, ih, List.map_cons]

/-- A script-execution oracle that is never consulted in the concrete
claims about template-only values. -/
def exNone : ExecO := fun _ _ => ""

/-- Claim C3 (amended): processValue resolves object values key by key in
insertion order but with one unchanged env for every sibling — no
resolved sibling value is folded back for the later siblings; the fold of
resolved results into the environment happens only in processHeaders,
where a later header template can observe an earlier header result
through its underscore alias. -/
theorem c3_object_resolution_amended :
    (∀ (procEnv : List (String × String)) (ex : ExecO)
        (kvs : List (String × JValue)) (env : List (String × String)),
      processValue procEnv ex (.obj kvs) env =
        .obj (kvs.map (fun kv => (kv.1, processValue procEnv ex kv.2 env)))) ∧
    (processHeaders [] exNone [("x-a", "v1"), ("x-b", "\x7bx_a\x7d")] =
      [("x-a", "v1"), ("x-b", "v1")]) := by
  constructor
  · intro procEnv ex kvs env
    show JValue.obj (processValueObj procEnv ex kvs env) = _
    rw [processValueObj_map]
  · decide

/-- Counterexample to claim C3: in an object value the second sibling
cannot observe the first sibling resolution — the code yields the empty
string for the template of key b, while the folded-environment semantics
the claim describes would yield the value of key a. -/
theorem c3_counterexample :
    processValue [] exNone (.obj [("a", .str "x"), ("b", .str "\x7ba\x7d")]) [] =
      .obj [("a", .str "x"), ("b", .str "")] ∧
    processValueSpecFold [] exNone (.obj [("a", .str "x"), ("b", .str "\x7ba\x7d")]) [] =
      .obj [("a", .str "x"), ("b", .str "x")] ∧
    ("" : String) ≠ "x" := by
  exact ⟨rfl, rfl, by decide⟩

/-! Claim C8: side effects of the Spec Filter. -/

theorem filterPaths_ops_preserved (retest : String → String → Bool) (spec : Spec)
    (rules : List FilterRule) (path m : String) (op : Operation)
    (mops : List (String × Operation)) :
    (path, mops) ∈ filterPaths retest spec rules → (m, op) ∈ mops →
    ∃ mops0, (path, mops0) ∈ spec.paths ∧ (m, op) ∈ mops0 := by
  intro hp hm
  rcases List.mem_filterMap.mp hp with ⟨pm, hpm, hf⟩
  split at hf
  · exact absurd hf (by simp)
  · have h2 := Option.some.inj hf
    have hp1 : pm.1 = path := congrArg Prod.fst h2
    have hmops : filterPathItem retest rules pm.1 pm.2 = mops := congrArg Prod.snd h2
    refine ⟨pm.2, ?_, ?_⟩
    · rw [← hp1]
      exact hpm
    · rw [← hmops] at hm
      exact (List.mem_filter.mp hm).1

/-- Claim C8 (amended): filterSpec is the identity when no filter rules
are configured; with rules it builds a fresh filtered path map whose
operations are exactly (shared) operations of the input, and leaves every
other field of the document unchanged — but it does reassign the paths
field of the input document itself to that fresh map (parser.ts line 303
mutates the argument and returns it), so the paths of the input document
are not preserved by the call. -/
theorem c8_filter_amended :
    (∀ (retest : String → String → Bool) (spec : Spec),
      spec.xFilterRules = none → filterSpec retest spec = spec) ∧
    (∀ (retest : String → String → Bool) (spec : Spec),
      spec.xFilterRules = some [] → filterSpec retest spec = spec) ∧
    (∀ (retest : String → String → Bool) (spec : Spec) (rules : List FilterRule),
      spec.xFilterRules = some rules → rules ≠ [] →
      filterSpec retest spec = { spec with paths := filterPaths retest spec rules }) ∧
    (∀ (retest : String → String → Bool) (spec : Spec) (rules : List FilterRule)
        (path m : String) (op : Operation) (mops : List (String × Operation)),
      (path, mops) ∈ filterPaths retest spec rules → (m, op) ∈ mops →
      ∃ mops0, (path, mops0) ∈ spec.paths ∧ (m, op) ∈ mops0) := by
  refine ⟨?_, ?_, ?_, ?_⟩
  · intro retest spec h
    simp [filterSpec, h]
  · intro retest spec h
    simp [filterSpec, h]
  · intro retest spec rules h hne
    cases rules with
    | nil => exact absurd rfl hne
    | cons r rs => simp [filterSpec, h]
  · exact filterPaths_ops_preserved

/-- The regular-expression oracle for the concrete filter scenarios: every
pattern matches. -/
def c8RtAll : String → String → Bool := fun _ _ => true

/-- The operation of the concrete filter scenarios. -/
def c8Op : Operation := {}

/-- A specification whose single rule matches and excludes everything. -/
def c8Spec : Spec :=
  { paths := [("/a", [("get", c8Op)])],
    xFilterRules := some [{ exclude := some true }] }

/-- A specification whose single field-free rule matches and includes
everything. -/
def c8SpecKeep : Spec :=
  { paths := [("/a", [("get", c8Op)])],
    xFilterRules := some [{}] }

/-- A specification with no filter rules. -/
def c8SpecNoRules : Spec := { paths := [("/a", [("get", c8Op)])] }

/-- Witness for claim C8 (amended): the identity case, the reassignment
case, and the operation-sharing case at concrete inputs. -/
theorem c8_filter_amended_witness :
    filterSpec c8RtAll c8SpecNoRules = c8SpecNoRules ∧
    filterSpec c8RtAll c8Spec = { c8Spec with paths := [] } ∧
    (∃ mops0, ("/a", mops0) ∈ c8SpecKeep.paths ∧ ("get", c8Op) ∈ mops0) := by
  refine ⟨?_, ?_, ?_⟩
  · exact c8_filter_amended.1 c8RtAll c8SpecNoRules rfl
  · have h := c8_filter_amended.2.2.1 c8RtAll c8Spec [{ exclude := some true }] rfl
      (by intro hx; cases hx)
    rw [h]
    rfl
  · have hfp : filterPaths c8RtAll c8SpecKeep [{}] = [("/a", [("get", c8Op)])] := rfl
    exact c8_filter_amended.2.2.2 c8RtAll c8SpecKeep [{}] "/a" "get" c8Op
      [("get", c8Op)] (by rw [hfp]; exact List.mem_cons_self _ _)
      (List.mem_cons_self _ _)

/-- Counterexample to claim C8: after the call the paths of the input
specification document differ from its paths before the call — the source
reassigns the paths field of its argument (parser.ts line 303) and returns
that same document, so the returned value is the post-call state of the
input and its path map is not the one the input held. -/
theorem c8_counterexample :
    (filterSpec c8RtAll c8Spec).paths ≠ c8Spec.paths := by
  intro h
  have h0 : (filterSpec c8RtAll c8Spec).paths = [] := rfl
  rw [h0] at h
  have hlen := congrArg List.length h
  have h1 : c8Spec.paths.length = 1 := rfl
  rw [h1] at hlen
  exact absurd hlen (by decide)

/-! Claim C1: sensitive parameter masking and override. -/

theorem opParamStep_preserved (sens : List (String × String)) (k : String) :
    ∀ (ps : List OParam) (st : List (String × SchemaEntry) × List String),
      (∀ q ∈ ps, q.name ≠ k) →
      jget (ps.foldl (opParamStep sens) st).1 k = jget st.1 k := by
  intro ps
  induction ps with
  | nil => intro st _; rfl
  | cons p rest ih =>
    intro st h
    have hp : p.name ≠ k := h p (List.mem_cons_self p rest)
    have hrest := ih (opParamStep sens st p) (fun q hq => h q (List.mem_cons_of_mem p hq))
    rw [List.foldl_cons, hrest]
    unfold opParamStep
    split
    · rfl
    · split
      · rw [jget_jset]
        simp [Ne.symm hp]
      · rfl

theorem opParams_sentinel (sens : List (String × String)) :
    ∀ (ps : List OParam) (st : List (String × SchemaEntry) × List String)
      (par : OParam), par ∈ ps → (ps.map OParam.name).Nodup →
      (par.loc = "query" ∨ par.loc = "body" ∨ par.loc = "formData") →
      sensTruthy sens par.name = true →
      jget (ps.foldl (opParamStep sens) st).1 par.name = some (.sentinel par.descr) := by
  intro ps
  induction ps with
  | nil => intro st par hmem; exact absurd hmem (List.not_mem_nil par)
  | cons p rest ih =>
    intro st par hmem hnd hloc htr
    rcases List.mem_cons.mp hmem with h0 | h0
    · subst h0
      rw [List.map_cons] at hnd
      have hrestne : ∀ q ∈ rest, q.name ≠ par.name := by
        intro q hq he
        exact (List.nodup_cons.mp hnd).1 (he ▸ List.mem_map_of_mem OParam.name hq)
      rw [List.foldl_cons, opParamStep_preserved sens par.name rest _ hrestne]
      have hnp : par.loc ≠ "path" := by
        rcases hloc with h | h | h <;> rw [h] <;> decide
      have hin : (par.loc = "query" || par.loc = "body" || par.loc = "formData") = true := by
        rcases hloc with h | h | h <;> rw [h] <;> decide
      unfold opParamStep
      rw [if_neg hnp, if_pos hin, jget_jset, if_pos rfl]
      unfold mkEntry
      rw [htr]
      simp
    · rw [List.map_cons] at hnd
      have hnd' : (rest.map OParam.name).Nodup := (List.nodup_cons.mp hnd).2
      rw [List.foldl_cons]
      exact ih (opParamStep sens st p) par h0 hnd' hloc htr

theorem jassign_preserved {α : Type} (k : String) :
    ∀ (src : List (String × α)) (tgt : List (String × α)),
      (∀ q ∈ src, q.1 ≠ k) → jget (jassign tgt src) k = jget tgt k := by
  intro src
  induction src with
  | nil => intro tgt _; rfl
  | cons q rest ih =>
    intro tgt h
    have hq : q.1 ≠ k := h q (List.mem_cons_self q rest)
    show jget (jassign (jset tgt q.1 q.2) rest) k = _
    rw [ih (jset tgt q.1 q.2) (fun x hx => h x (List.mem_cons_of_mem q hx)), jget_jset]
    simp [Ne.symm hq]

theorem jassign_src {α : Type} :
    ∀ (src : List (String × α)) (tgt : List (String × α)) (k : String) (v : α),
      (src.map Prod.fst).Nodup → jget src k = some v →
      jget (jassign tgt src) k = some v := by
  intro src
  induction src with
  | nil => intro tgt k v _ h; exact absurd h (by simp [jget])
  | cons q rest ih =>
    intro tgt k v hnd hv
    rw [List.map_cons] at hnd
    by_cases hk : q.1 = k
    · have hrestne : ∀ x ∈ rest, x.1 ≠ k := by
        intro x hx he
        refine (List.nodup_cons.mp hnd).1 ?_
        rw [hk, ← he]
        exact List.mem_map_of_mem Prod.fst hx
      show jget (jassign (jset tgt q.1 q.2) rest) k = some v
      rw [jassign_preserved k rest _ hrestne, jget_jset, if_pos (hk.symm)]
      have : jget (q :: rest) k = some q.2 := by
        simp [jget, hk]
      rw [this] at hv
      exact hv
    · have hv' : jget rest k = some v := by
        simpa [jget, hk] using hv
      show jget (jassign (jset tgt q.1 q.2) rest) k = some v
      exact ih (jset tgt q.1 q.2) k v ((List.nodup_cons.mp hnd).2) hv'

theorem jget_map_str (sens : List (String × String)) (k : String) :
    jget (sens.map (fun kv => (kv.1, JValue.str kv.2))) k =
      (jget sens k).map JValue.str := by
  induction sens with
  | nil => rfl
  | cons q rest ih =>
    by_cases hk : q.1 = k
    · simp [jget, hk]
    · simp [jget, hk, ih]

/-- Whether a schema entry is the sensitive sentinel. -/
def entryIsSentinel : SchemaEntry → Bool
  | .sentinel _ => true
  | .typed _ _ => false

/-- The hashing oracle of concrete invocation scenarios without signing. -/
def trivCrypto : CryptoO :=
  { hmacRaw := fun _ _ => "", hmacHex := fun _ _ => "", sha256Hex := fun _ => "" }

/-- The invoker capabilities of the concrete scenarios: the URL parser
maps a base string to that origin with the root path, and the path
template helper is the identity on an already-filled path. -/
def ieTest : InvokeEnv :=
  { parseUrl := fun s => { base := s, pathname := "/", search := [] },
    urlToString := fun u => u.base ++ u.pathname,
    fillPath := fun t _ => t,
    crypto := trivCrypto, nowSec := 0 }

/-- A specification carrying only a base URL. -/
def c1Spec : Spec := { xRequestConfig := some { baseUrl := some "https://h" } }

/-- A GET tool whose operation holds the sensitive literal LIT for key k. -/
def c1ToolGet : ExtTool :=
  { name := "t", method := some "get", path := "/q",
    rawOp := { xSensitiveParams := [("k", "LIT")] } }

/-- The same tool with method POST. -/
def c1ToolPost : ExtTool :=
  { name := "t", method := some "post", path := "/q",
    rawOp := { xSensitiveParams := [("k", "LIT")] } }

/-- Caller parameters that try to override the sensitive key. -/
def c1Params : CallParams :=
  { inputParams := [("k", .str "attempt"), ("other", .num 1)] }

/-- Claim C1 (amended): an operation parameter in query, body or formData
whose name maps to a non-empty literal in x-sensitive-params gets the
constant sentinel as its inputParams schema entry instead of its declared
type; at invocation time every x-sensitive-params literal overwrites the
caller value for that key before the URL and body are built, so the
configured literal is what reaches the wire — in the concrete scenarios
as the query value of a GET plan and inside the JSON body of a POST plan.
(A key mapped to the empty string is not masked in the schema, see the
counterexample.) -/
theorem c1_sensitive_params_amended :
    (∀ (op : Operation) (par : OParam), par ∈ op.parameters →
      (op.parameters.map OParam.name).Nodup →
      (par.loc = "query" ∨ par.loc = "body" ∨ par.loc = "formData") →
      sensTruthy op.xSensitiveParams par.name = true →
      jget (buildInputParams op).1 par.name = some (.sentinel par.descr)) ∧
    (∀ (caller : List (String × JValue)) (sens : List (String × String))
        (k v : String), (sens.map Prod.fst).Nodup → jget sens k = some v →
      jget (extendInputParams caller sens) k = some (.str v)) ∧
    (invokePlan ieTest c1Spec c1ToolGet c1Params =
      .ok { url := { base := "https://h", pathname := "/q",
                     search := [("k", "LIT"), ("other", "1")] },
            method := "GET", headers := [], body := none, timeoutMs := 30000 }) ∧
    (invokePlan ieTest c1Spec c1ToolPost c1Params =
      .ok { url := { base := "https://h", pathname := "/q", search := [] },
            method := "POST",
            headers := [("content-type", .s "application/json")],
            body := some "\x7b\"k\":\"LIT\",\"other\":1\x7d",
            timeoutMs := 30000 }) := by
  refine ⟨?_, ?_, rfl, rfl⟩
  · intro op par hmem hnd hloc htr
    exact opParams_sentinel op.xSensitiveParams op.parameters ([], []) par hmem hnd hloc htr
  · intro caller sens k v hnd hv
    unfold extendInputParams
    have hkeys : ((sens.map (fun kv => (kv.1, JValue.str kv.2))).map Prod.fst).Nodup := by
      rw [List.map_map]
      exact hnd
    have hsrc : jget (sens.map (fun kv => (kv.1, JValue.str kv.2))) k =
        some (.str v) := by
      rw [jget_map_str, hv]
      rfl
    exact jassign_src _ caller k (.str v) hkeys hsrc

/-- A masked operation parameter for the claim C1 witness. -/
def c1OpMasked : Operation :=
  { parameters := [{ name := "k", loc := "query",
                     schema := some { stype := some "string" }, descr := "d" }],
    xSensitiveParams := [("k", "LIT")] }

/-- Witness for claim C1 (amended): the sentinel entry and the override
at concrete inputs. -/
theorem c1_sensitive_params_witness :
    jget (buildInputParams c1OpMasked).1 "k" = some (.sentinel "d") ∧
    jget (extendInputParams [("k", .str "attempt")] [("k", "LIT")]) "k" =
      some (.str "LIT") := by
  constructor
  · exact c1_sensitive_params_amended.1 c1OpMasked _
      (List.mem_cons_self _ _) (by decide) (Or.inl rfl) (by decide)
  · exact c1_sensitive_params_amended.2.1 [("k", .str "attempt")] [("k", "LIT")]
      "k" "LIT" (by decide) (by decide)

/-- An operation whose parameter k is listed in x-sensitive-params with
the empty-string literal. -/
def c1OpCex : Operation :=
  { parameters := [{ name := "k", loc := "query",
                     schema := some { stype := some "integer" } }],
    xSensitiveParams := [("k", "")] }

/-- Counterexample to claim C1: the parameter k appears in the
x-sensitive-params map of its operation (mapped to the empty string), yet
its generated schema entry keeps the declared type integer and is not the
sentinel — the source masks only keys whose stored literal is truthy
(translator.ts line 214). -/
theorem c1_counterexample :
    jget c1OpCex.xSensitiveParams "k" = some "" ∧
    jget (buildInputParams c1OpCex).1 "k" = some (.typed "integer" "") ∧
    Option.map entryIsSentinel (jget (buildInputParams c1OpCex).1 "k") = some false := by
  exact ⟨rfl, rfl, rfl⟩

/-! Claim C2: invoke and the Value Resolver. -/

/-- The request configuration of the integration-test scenario for
claim C2: a template header for the authorization and user id. -/
def c2Cfg : RequestCfg :=
  { baseUrl := some "https://api.example.com",
    headers := some [("Authorization", "Bearer \x7bAPI_KEY\x7d"),
                     ("x-user-id", "\x7bUSER_ID\x7d")] }

/-- The specification of the claim C2 scenario. -/
def c2Spec : Spec :=
  { xRequestConfig := some c2Cfg, servers := ["https://api.example.com"] }

/-- The tool of the claim C2 scenario. -/
def c2Tool : ExtTool :=
  { name := "test-tool", method := some "get",
    path := "/user/\x7bUSER_ID\x7d/profile", rawOp := {} }

/-- The caller parameters of the claim C2 scenario. -/
def c2Params : CallParams := { pathParams := [("USER_ID", .str "\x7bUSER_ID\x7d")] }

/-- The process environment of the claim C2 scenario, as set by the
integration test of the repository. -/
def c2ProcEnv : List (String × String) :=
  [("API_KEY", "test-api-key"), ("USER_ID", "user123")]

/-- Claim C2 (code bug): the request construction of invoke never calls
the Value Resolver — the configured template headers reach the request
verbatim (first conjunct), although the Value Resolver, which the
repository documentation and the invoker integration test wire into
invoke, resolves exactly these headers to the values the test asserts
(second conjunct).  The embedded invokePlan does not even consume a
process environment or script oracle, mirroring the absence of any
resolution call in invoker.ts lines 39-159. -/
theorem c2_invoke_skips_value_resolver :
    invokePlan ieTest c2Spec c2Tool c2Params =
      .ok { url := { base := "https://api.example.com",
                     pathname := "/user/\x7bUSER_ID\x7d/profile", search := [] },
            method := "GET",
            headers := [("Authorization", .s "Bearer \x7bAPI_KEY\x7d"),
                        ("x-user-id", .s "\x7bUSER_ID\x7d")],
            body := none, timeoutMs := 30000 } ∧
    processHeaders c2ProcEnv exNone
        [("Authorization", "Bearer \x7bAPI_KEY\x7d"), ("x-user-id", "\x7bUSER_ID\x7d")] =
      [("Authorization", "Bearer test-api-key"), ("x-user-id", "user123")] ∧
    processRequestValues c2ProcEnv exNone
        [("Authorization", "Bearer \x7bAPI_KEY\x7d")]
        (.obj [("USER_ID", .str "\x7bUSER_ID\x7d")]) (.obj []) =
      ([("Authorization", "Bearer test-api-key")],
       .obj [("USER_ID", .str "user123")], .obj []) := by
  exact ⟨rfl, by decide, rfl⟩

/-! Claim C10: the path-to-header remap. -/

theorem applyRemap_untouched (k : String) :
    ∀ (hks : List String) (hdrs : List (String × HVal)) (items : List String),
      k ∉ hks → jget (applyRemap hdrs hks items) k = jget hdrs k := by
  intro hks
  induction hks with
  | nil => intro hdrs items _; rfl
  | cons hk hks ih =>
    intro hdrs items hnot
    have hk1 : k ≠ hk := fun h => hnot (h ▸ List.mem_cons_self hk hks)
    have hk2 : k ∉ hks := fun h => hnot (List.mem_cons_of_mem hk h)
    cases items with
    | nil =>
      show jget (applyRemap hdrs hks []) k = _
      exact ih hdrs [] hk2
    | cons s items =>
      show jget (applyRemap (if s.isEmpty then hdrs else jset hdrs hk (.s s)) hks items) k = _
      rw [ih _ items hk2]
      by_cases hs : s.isEmpty
      · rw [if_pos hs]
      · rw [if_neg hs, jget_jset, if_neg hk1]

theorem applyRemap_get (i : Nat) :
    ∀ (hks : List String) (hdrs : List (String × HVal)) (items : List String)
      (h : i < hks.length), hks.Nodup →
      jget (applyRemap hdrs hks items) (hks.get ⟨i, h⟩) =
        (match items.get? i with
         | some s =>
           if s.isEmpty then jget hdrs (hks.get ⟨i, h⟩) else some (.s s)
         | none => jget hdrs (hks.get ⟨i, h⟩)) := by
  induction i with
  | zero =>
    intro hks hdrs items h hnd
    cases hks with
    | nil => simp at h
    | cons hk hks =>
      have hnot : hk ∉ hks := (List.nodup_cons.mp hnd).1
      cases items with
      | nil =>
        show jget (applyRemap hdrs hks []) hk = _
        rw [applyRemap_untouched hk hks hdrs [] hnot]
        rfl
      | cons s items =>
        show jget (applyRemap (if s.isEmpty then hdrs else jset hdrs hk (.s s)) hks items) hk = _
        rw [applyRemap_untouched hk hks _ items hnot]
        by_cases hs : s.isEmpty
        · rw [if_pos hs]
          simp [hs]
        · rw [if_neg hs, jget_jset, if_pos rfl]
          simp [hs]
  | succ i ih =>
    intro hks hdrs items h hnd
    cases hks with
    | nil => simp at h
    | cons hk hks =>
      have hnd' : hks.Nodup := (List.nodup_cons.mp hnd).2
      have hb : i < hks.length := by simpa using h
      have hget : (hk :: hks).get ⟨i + 1, h⟩ = hks.get ⟨i, hb⟩ := rfl
      have hne : hks.get ⟨i, hb⟩ ≠ hk := by
        intro he
        exact (List.nodup_cons.mp hnd).1 (he ▸ List.get_mem hks i hb)
      cases items with
      | nil =>
        rw [hget]
        show jget (applyRemap hdrs hks []) _ = _
        have this2 := ih hks hdrs [] hb hnd'
        rw [this2]
        rfl
      | cons s items =>
        rw [hget]
        show jget (applyRemap (if s.isEmpty then hdrs else jset hdrs hk (.s s)) hks items) _ = _
        by_cases hs : s.isEmpty
        · have this2 := ih hks hdrs items hb hnd'
          rw [if_pos hs, this2]
          rfl
        · have this2 := ih hks (jset hdrs hk (.s s)) items hb hnd'
          rw [if_neg hs, this2]
          have hj : jget (jset hdrs hk (HVal.s s)) (hks.get ⟨i, hb⟩) =
              jget hdrs (hks.get ⟨i, hb⟩) := by
            rw [jget_jset, if_neg hne]
          rw [hj]
          rfl

/-- A specification with a base URL for the remap scenarios. -/
def c10Spec : Spec := { xRequestConfig := some { baseUrl := some "https://h" } }

/-- A tool remapping two leading path segments to headers. -/
def c10Tool : ExtTool :=
  { name := "t", method := some "get", path := "/svc/op/extra",
    rawOp := { xRemapPathToHeader := some ["X-Svc", "X-Op"] } }

/-- Claim C10 (amended): with a declared x-remap-path-to-header list the
filled path is never written into the URL — the URL keeps the path of the
parsed effective base URL; the leading path segments are consumed one per
listed header key positionally and in declared order, a header receiving
its segment only when that consumed segment is non-empty (an empty
segment is consumed but sets nothing, rather than being skipped over);
keys not in the list are untouched; and segments past the list length are
discarded. -/
theorem c10_remap_amended :
    (∀ (k : String) (hks : List String) (hdrs : List (String × HVal))
        (items : List String), k ∉ hks →
      jget (applyRemap hdrs hks items) k = jget hdrs k) ∧
    (∀ (i : Nat) (hks : List String) (hdrs : List (String × HVal))
        (items : List String) (h : i < hks.length), hks.Nodup →
      jget (applyRemap hdrs hks items) (hks.get ⟨i, h⟩) =
        (match items.get? i with
         | some s =>
           if s.isEmpty then jget hdrs (hks.get ⟨i, h⟩) else some (.s s)
         | none => jget hdrs (hks.get ⟨i, h⟩))) ∧
    (invokePlan ieTest c10Spec c10Tool {} =
      .ok { url := { base := "https://h", pathname := "/", search := [] },
            method := "GET",
            headers := [("X-Svc", .s "svc"), ("X-Op", .s "op")],
            body := none, timeoutMs := 30000 }) := by
  exact ⟨fun k hks hdrs items h => applyRemap_untouched k hks hdrs items h,
         fun i hks hdrs items h hnd => applyRemap_get i hks hdrs items h hnd,
         rfl⟩

/-- Witness for claim C10 (amended): the characterization applied at
concrete inputs — an empty first segment leaves the first header unset
while the second header receives the second segment, and unlisted keys
are untouched. -/
theorem c10_remap_amended_witness :
    jget (applyRemap [] ["a", "b"] ["", "v"]) "a" = none ∧
    jget (applyRemap [] ["a", "b"] ["", "v"]) "b" = some (.s "v") ∧
    jget (applyRemap [] ["a", "b"] ["", "v"]) "z" = none := by
  refine ⟨?_, ?_, ?_⟩
  · have h := c10_remap_amended.2.1 0 ["a", "b"] [] ["", "v"] (by decide) (by decide)
    simpa using h
  · have h := c10_remap_amended.2.1 1 ["a", "b"] [] ["", "v"] (by decide) (by decide)
    simpa using h
  · have h := c10_remap_amended.1 "z" ["a", "b"] [] ["", "v"] (by decide)
    simpa using h

/-- A tool whose filled path starts with an empty segment before a
non-empty one, with a single remap header. -/
def c10ToolCex : ExtTool :=
  { name := "t", method := some "get", path := "//b",
    rawOp := { xRemapPathToHeader := some ["h1"] } }

/-- Counterexample to claim C10: the filled path //b has b as its first
non-empty leading segment, yet the single listed header h1 is not set at
all — the loop consumes the empty first segment for h1 and discards b,
while the claim says the first non-empty segment is copied into h1. -/
theorem c10_counterexample :
    invokePlan ieTest c10Spec c10ToolCex {} =
      .ok { url := { base := "https://h", pathname := "/", search := [] },
            method := "GET", headers := [], body := none, timeoutMs := 30000 } ∧
    (((sSplitChar '/' "//b").drop 1).filter (fun s => !s.isEmpty)).head? = some "b" := by
  exact ⟨rfl, by decide⟩

/-! Claim C9: missing signing credentials. -/

theorem strAppendAssoc (a b c : String) : a ++ b ++ c = a ++ (b ++ c) := by
  cases a with | mk la =>
  cases b with | mk lb =>
  cases c with | mk lc =>
  show String.mk ((la ++ lb) ++ lc) = String.mk (la ++ (lb ++ lc))
  rw [List.append_assoc]

theorem sStartsWith_append (p t : String) : sStartsWith (p ++ t) p = true := by
  cases p with | mk lp =>
  cases t with | mk lt =>
  show lp.isPrefixOf (lp ++ lt) = true
  induction lp with
  | nil => simp [List.isPrefixOf]
  | cons c cs ih => simp [List.isPrefixOf, ih]

/-- A credential record with every field absent. -/
def c9AcNone : TCAuthConfig := {}

/-- The signature value the adapter derives when both credentials are
absent: the key chain is seeded with the string TC3undefined. -/
def c9Sig (co : CryptoO) (ts : Int) : String :=
  co.hmacHex
    (co.hmacRaw (co.hmacRaw (co.hmacRaw "TC3undefined" (getDateStr ts)) "service")
      "tc3_request")
    (String.intercalate "\n"
      ["TC3-HMAC-SHA256", toString ts,
       getDateStr ts ++ "/" ++ "service" ++ "/tc3_request",
       co.sha256Hex (String.intercalate "\n"
         ["POST", "/", "", "", "", co.sha256Hex ""])])

/-- Claim C9 (amended): the signature adapter validates no credential
field — for every hashing oracle and timestamp, a signing request whose
secret id and secret key are both absent still returns the full header
set, the absent secret id rendered as the literal text undefined inside
the Credential part of the Authorization header and the key derivation
seeded with TC3undefined, instead of aborting with a configuration
error. -/
theorem c9_signing_amended :
    ∀ (co : CryptoO) (ts : Int), ∃ tail,
      jget (generateTencentCloudSignature co ts "post" "/" [] [] none c9AcNone)
          "Authorization" =
        some (.s ("TC3-HMAC-SHA256 Credential=undefined/" ++ tail)) ∧
      sStartsWith
        (hvalToString ((jget (generateTencentCloudSignature co ts "post" "/" [] [] none
          c9AcNone) "Authorization").getD (.s "")))
        "TC3-HMAC-SHA256 Credential=undefined/" = true := by
  intro co ts
  have h1 : jget (generateTencentCloudSignature co ts "post" "/" [] [] none c9AcNone)
      "Authorization" =
      some (.s ("TC3-HMAC-SHA256 Credential=" ++ "undefined" ++ "/" ++
        (getDateStr ts ++ "/" ++ "service" ++ "/tc3_request") ++
        ", SignedHeaders=" ++ "" ++ ", Signature=" ++ c9Sig co ts)) := rfl
  have hP : ("TC3-HMAC-SHA256 Credential=undefined/" : String) =
      "TC3-HMAC-SHA256 Credential=" ++ "undefined" ++ "/" := rfl
  have hmain : jget (generateTencentCloudSignature co ts "post" "/" [] [] none c9AcNone)
      "Authorization" =
      some (.s ("TC3-HMAC-SHA256 Credential=undefined/" ++
        ((getDateStr ts ++ "/" ++ "service" ++ "/tc3_request") ++
          ", SignedHeaders=" ++ "" ++ ", Signature=" ++ c9Sig co ts))) := by
    rw [h1, hP]
    simp only [strAppendAssoc]
  refine ⟨_, hmain, ?_⟩
  rw [hmain]
  exact sStartsWith_append _ _

/-- The trivial hashing oracle of the concrete signing scenario. -/
def c9Crypto : CryptoO := trivCrypto

/-- Counterexample to claim C9: at timestamp zero, with both credentials
absent and a trivial hashing oracle, the adapter returns a complete
header set — Authorization carrying Credential=undefined and the
timestamp header — instead of aborting with a configuration error as the
claim requires for a missing secret id or key. -/
theorem c9_counterexample :
    generateTencentCloudSignature c9Crypto 0 "post" "/" [] [] none c9AcNone =
      [("Authorization",
        .s "TC3-HMAC-SHA256 Credential=undefined/1970-01-01/service/tc3_request, SignedHeaders=, Signature="),
       ("X-TC-Timestamp", .n 0)] := by
  rfl

/-! Claim C7: response post-processing. -/

theorem jset_self {α : Type} :
    ∀ (l : List (String × α)) (k : String) (v : α),
      jget l k = some v → jset l k v = l := by
  intro l
  induction l with
  | nil => intro k v h; exact absurd h (by simp [jget])
  | cons kv rest ih =>
    intro k v h
    obtain ⟨k', w⟩ := kv
    by_cases hk : k' = k
    · have hw : w = v := by simpa [jget, hk] using h
      simp [jset, hk, hw]
    · have h' : jget rest k = some v := by simpa [jget, hk] using h
      simp [jset, hk, ih k v h']

theorem listSetAt_self {α : Type} :
    ∀ (xs : List α) (i : Nat) (v : α),
      xs.get? i = some v → listSetAt xs i v = xs := by
  intro xs
  induction xs with
  | nil => intro i v h; exact absurd h (by simp)
  | cons x rest ih =>
    intro i v h
    cases i with
    | zero =>
      have : x = v := by simpa using h
      simp [listSetAt, this]
    | succ i =>
      have h' : rest.get? i = some v := by simpa using h
      simp [listSetAt, ih i v h']

theorem navDelete_noop :
    ∀ (init : List String) (cur : JValue) (last : String),
      getPath cur (init ++ [last]) = none → navDelete cur init last = cur := by
  intro init
  induction init with
  | nil =>
    intro cur last h
    cases hk : getKey cur last with
    | some child => simp [getPath, hk] at h
    | none =>
      unfold navDelete
      rw [if_neg]
      simp [hasKey, hk]
  | cons seg init' ih =>
    intro cur last h
    cases hk : getKey cur seg with
    | none =>
      unfold navDelete
      rw [if_neg]
      simp [hasKey, hk]
    | some child =>
      have hchild : getPath child (init' ++ [last]) = none := by
        simpa [getPath, hk] using h
      have hrec := ih child last hchild
      cases cur with
      | obj kvs =>
        have hj : jget kvs seg = some child := hk
        unfold navDelete
        rw [if_pos (by simp [isObjectJ, hasKey, hk])]
        simp only [hj, hrec]
        rw [jset_self kvs seg child hj]
      | arr xs =>
        unfold navDelete
        rw [if_pos (by simp [isObjectJ, hasKey, hk])]
        cases hn : sToNat? seg with
        | none => simp [getKey, hn] at hk
        | some i =>
          have hx : xs.get? i = some child := by simpa [getKey, hn] using hk
          simp only [hn, hx, hrec]
          rw [listSetAt_self xs i child hx]
      | null => simp [getKey] at hk
      | bool b => simp [getKey] at hk
      | num n => simp [getKey] at hk
      | str s => simp [getKey] at hk

theorem excludeOne_noop (item : JValue) (p : String)
    (h : getPath item (splitPath p) = none) : excludeOne item p = item := by
  cases hs : splitPath p with
  | nil =>
    unfold excludeOne
    rw [hs]
  | cons s rest =>
    rw [hs] at h
    have hne : s :: rest ≠ [] := by simp
    have hfull : (s :: rest).dropLast ++ [(s :: rest).getLast hne] = s :: rest :=
      List.dropLast_append_getLast hne
    rw [← hfull] at h
    unfold excludeOne
    rw [hs]
    exact navDelete_noop _ item _ h

theorem sensitizeOne_noop (item : JValue) (p : String)
    (h : getPath item (splitPath p) = none) : sensitizeOne item p = item := by
  simp [sensitizeOne, hasPath, h]

theorem includeStep_noop (item acc : JValue) (p : String)
    (h : getPath item (splitPath p) = none) : includeStep item acc p = acc := by
  simp [includeStep, h]

/-- The operation of the exclude-only example of claim C7. -/
def c7OpA : Operation := { xExcludeResponseKeys := some ["b"] }

/-- The operation of the exclude-and-sensitize example of claim C7. -/
def c7OpB : Operation :=
  { xExcludeResponseKeys := some ["b"], xSensitiveResponseFields := some ["a"] }

/-- The data of the claim C7 examples. -/
def c7Data : JValue := .obj [("a", .num 1), ("b", .num 2), ("c", .num 3)]

/-- Claim C7: each post-processed item is produced by include, then
exclude, then sensitize, in that fixed order; a dot path absent from the
item is a no-op in every one of the three steps (and the steps are total,
so nothing is raised); and the two specification examples compute as
stated, the sentinel being the constant of invoker.ts line 24. -/
theorem c7_postprocess :
    (∀ (item : JValue) (inc excl sens : List String), isObjectJ item = true →
      transformItem item inc excl sens =
        applySensitization sens (applyExclusions excl (createInitialItem inc item))) ∧
    (∀ (item : JValue) (p : String), getPath item (splitPath p) = none →
      excludeOne item p = item) ∧
    (∀ (item : JValue) (p : String), getPath item (splitPath p) = none →
      sensitizeOne item p = item) ∧
    (∀ (item acc : JValue) (p : String), getPath item (splitPath p) = none →
      includeStep item acc p = acc) ∧
    (postProcess {} (some c7OpA) c7Data = .obj [("a", .num 1), ("c", .num 3)]) ∧
    (postProcess {} (some c7OpB) c7Data =
      .obj [("a", .str SENSITIVE_MARK), ("c", .num 3)]) := by
  refine ⟨?_, excludeOne_noop, sensitizeOne_noop, includeStep_noop, rfl, rfl⟩
  intro item inc excl sens h
  simp [transformItem, h]

/-- The item of the claim C7 witness. -/
def c7WItem : JValue := .obj [("a", .num 1)]

/-- Witness for claim C7: the fixed order at a concrete object, and the
three no-op clauses applied at a dot path absent from a concrete item. -/
theorem c7_postprocess_witness :
    transformItem c7Data [] ["b"] [] =
      applySensitization [] (applyExclusions ["b"] (createInitialItem [] c7Data)) ∧
    excludeOne c7WItem "zz" = c7WItem ∧
    sensitizeOne c7WItem "a.b" = c7WItem ∧
    includeStep c7WItem (.obj []) "zz" = .obj [] := by
  refine ⟨?_, ?_, ?_, ?_⟩
  · exact c7_postprocess.1 c7Data [] ["b"] [] rfl
  · exact c7_postprocess.2.1 c7WItem "zz" rfl
  · exact c7_postprocess.2.2.1 c7WItem "a.b" rfl
  · exact c7_postprocess.2.2.2.1 c7WItem (.obj []) "zz" rfl
